import Mathlib

/-!
Verification development for the Scriptwriting-AI repository.

The repository contains two parallel server variants:
* the synchronous variant: `src/server/routes.ts` together with the in-memory
  `MemStorage` whose `createScript` hardcodes `totalIterations` (embedded as
  the `Sync` namespace below);
* the asynchronous variant: the route file in `src/unnamed/part_006` together
  with its own `MemStorage` and the AI adapter modules in `src/unnamed/part_004`
  (embedded as the `Async` namespace below).

Pure library code (prompt builder, backend selection, export formatter,
client-side script utilities) is embedded directly.  JavaScript semantics
(`Math.round`, `String.split(/\s+/)`, truthiness of `||`, array indexing out
of bounds, regex replacement) are modelled explicitly by the `Js` helpers.
-/

namespace Scriptwriting

/-! ## JavaScript primitives -/
/-- `Math.round x` for JavaScript: round half toward positive infinity. -/
def jsRound (q : ℚ) : ℤ := ⌊q + (1 : ℚ) / 2⌋

/-- Characters matched by the regex class `\s` (the ASCII ones). -/
def isJsSpace (c : Char) : Bool :=
  c == ' ' || c == '\t' || c == '\n' || c == '\r' ||
    c == Char.ofNat 11 || c == Char.ofNat 12

/-- Auxiliary scanner for `String.split(/\s+/)`: a separator is a maximal run
of whitespace; it ends the current piece, and the whitespace characters of the
run are skipped via the boolean flag; the final piece (possibly empty) is
always emitted, matching JavaScript. -/
def splitWsGo : List Char → List Char → Bool → List String
  | [], acc, _ => [String.mk acc.reverse]
  | c :: rest, acc, skipping =>
    if isJsSpace c then
      if skipping then splitWsGo rest acc true
      else String.mk acc.reverse :: splitWsGo rest [] true
    else
      splitWsGo rest (c :: acc) false

/-- `script.split(/\s+/)` as used by both adapters' analysis fallback. -/
def jsSplitWs (s : String) : List String := splitWsGo s.data [] false

/-- `script.split(/\s+/).length`: the word count used in the fallback metrics. -/
def wordCountJs (s : String) : ℕ := (jsSplitWs s).length

/-- JavaScript `someNumber || fallback`: `undefined` and `0` are falsy. -/
def jsOrNum : Option ℤ → ℤ → ℤ
  | none, d => d
  | some v, d => if v = 0 then d else v

/-- JavaScript `someString || fallback`: `undefined` and `""` are falsy. -/
def jsOrStr : Option String → String → String
  | none, d => d
  | some s, d => if s = "" then d else s

/-- A JavaScript template literal renders `undefined` as the text `undefined`. -/
def jsShowOpt : Option String → String
  | none => "undefined"
  | some s => s

/-- JavaScript array indexing `l[i]` with an integer index: `undefined`
outside the bounds. -/
def jsArrayGet (l : List String) (i : ℤ) : Option String :=
  if h : 0 ≤ i ∧ i < l.length then some (l.get ⟨i.toNat, by omega⟩) else none

/-- List `bs` begins with `as`. -/
def isPrefixList : List Char → List Char → Bool
  | [], _ => true
  | _ :: _, [] => false
  | a :: as, b :: bs => a == b && isPrefixList as bs

def containsSubAux (needle : List Char) : List Char → Bool
  | [] => isPrefixList needle []
  | c :: rest => isPrefixList needle (c :: rest) || containsSubAux needle rest

/-- JavaScript `hay.includes(needle)`. -/
def jsIncludes (hay needle : String) : Bool := containsSubAux needle.data hay.data

/-- JavaScript `s.toLowerCase()` (ASCII range). -/
def jsToLower (s : String) : String := String.mk (s.data.map Char.toLower)

/-! ## Adapter analysis fallback (src/unnamed/part_004, `analyzeScript`) -/
/-- The metrics object produced by `analyzeScript`. -/
structure AnalyzeMetrics where
  wordCount : ℤ
  estimatedDuration : ℤ
  readabilityScore : Option ℤ
deriving DecidableEq

/-- What the provider's own scoring call supplied, when the call succeeded and
its response contained a parsable JSON object.  Each field may be absent. -/
structure ProviderAnalysis where
  wordCount : Option ℤ
  estimatedDuration : Option ℤ
  readabilityScore : Option ℤ
deriving DecidableEq

/-- `Math.round(script.split(/\s+/).length / 150 * 60)`: the deterministic
fallback duration, in seconds. -/
def fallbackDuration (script : String) : ℤ :=
  jsRound ((wordCountJs script : ℚ) / 150 * 60)

/-- `analyzeScript` from src/unnamed/part_004 (the anthropic adapter; the
openai one at part_004 lines 273-311 computes the same fallback).  The
provider call is external: its outcome is the second argument, `none` standing
for a failed call or a response without a parsable JSON object. -/
def analyzeScript (script : String) : Option ProviderAnalysis → AnalyzeMetrics
  | some r =>
    { wordCount := jsOrNum r.wordCount (wordCountJs script : ℤ)
      estimatedDuration := jsOrNum r.estimatedDuration (fallbackDuration script)
      readabilityScore := r.readabilityScore }
  | none =>
    { wordCount := (wordCountJs script : ℤ)
      estimatedDuration := fallbackDuration script
      readabilityScore := none }

/-- `estimateReadingTime` from src/client/src/lib/script-utils.ts: minutes,
rounded to nearest, minimum 1. -/
def estimateReadingTime (content : String) : ℤ :=
  max 1 (jsRound ((wordCountJs content : ℚ) / 150))

/-- Modelled from the spec claim (not from the source): the duration the claim
says the fallback computes — word count at 150 words/minute rounded to the
nearest minute with a minimum of one minute, expressed in seconds. -/
def claimedFallbackDurationSeconds (script : String) : ℤ :=
  60 * max 1 (jsRound ((wordCountJs script : ℚ) / 150))

/-- `n + 1` copies of "word" separated by single spaces, as a character
list. -/
def wordsChars : ℕ → List Char
  | 0 => "word".data
  | n + 1 => "word".data ++ ' ' :: wordsChars n

/-- A draft of exactly 450 whitespace-separated words. -/
def draft450 : String := String.mk (wordsChars 449)

/-! ## Prompt builder (src/server/lib/ai-service.ts) -/
/-- Parameters of a generation/improvement request (`ScriptParams`). -/
structure ScriptParams where
  title : String
  description : String
  lengthBand : String
  tone : String
  style : String
  iterationNumber : ℤ
  previousContent : Option String
deriving DecidableEq

/-- The four improvement-focus statements of `createImprovementPrompt`. -/
def improvementFocusList : List String :=
  [ "Focus on reducing any redundancy or repetitive phrases.",
    "Improve the flow between sections and strengthen transitions.",
    "Enhance the language variety and incorporate higher-impact phrases.",
    "Final polish: optimize for engagement and ensure natural speech patterns." ]

/-- `[...][iterationNumber - 1] || "Improve the overall quality of the script."`
from `createImprovementPrompt` (ai-service.ts lines 84-89). -/
def improvementFocus (iterationNumber : ℤ) : String :=
  jsOrStr (jsArrayGet improvementFocusList (iterationNumber - 1))
    "Improve the overall quality of the script."

/-- `createImprovementPrompt` from ai-service.ts lines 81-110. -/
def createImprovementPrompt (p : ScriptParams) : String :=
  "\nYou are improving a YouTube script titled \"" ++ p.title ++
    "\" for iteration #" ++ toString p.iterationNumber ++
    ".\n\nPREVIOUS SCRIPT:\n" ++ jsShowOpt p.previousContent ++
    "\n\nIMPROVEMENT FOCUS:\n" ++ improvementFocus p.iterationNumber ++
    "\n\nYour task is to improve this script while maintaining its structure and key points.\nAnalyze the previous script and make targeted improvements to enhance quality.\nProvide a summary of improvements you\x27ve made.\n\nOUTPUT FORMAT:\n1. First provide the complete improved script\n2. Then add \"IMPROVEMENTS:\" followed by a bullet list of specific changes you made\n\nPlease do not just make minor word changes - make meaningful improvements to the structure, flow, and impact of the script.\n"

/-! ## Backend selection -/
/-- The two concrete adapter instances that can be returned. -/
inductive AIServiceTag
  | openaiService
  | anthropicService
deriving DecidableEq

/-- `getAIService` from src/server/lib/ai-service.ts lines 28-42: a switch on
the model name; `grok` and the default case both return the OpenAI service. -/
def getAIService (model : String) : AIServiceTag :=
  if model = "gpt-4o" then .openaiService
  else if model = "claude-3-7-sonnet-20250219" then .anthropicService
  else if model = "grok" then .openaiService
  else .openaiService

/-- The inline backend dispatch of src/unnamed/part_006 `generateScriptContent`
(lines 293-297): `script.aiModel.toLowerCase().includes('claude')`. -/
def selectService006 (aiModel : String) : AIServiceTag :=
  if jsIncludes (jsToLower aiModel) "claude" then .anthropicService else .openaiService

/-! ## Synchronous variant: src/server/routes.ts over the `MemStorage` of
src/server/lib/ai-service.ts (second document, lines 119-237).

External effects are modelled as operation inputs: the AI call outcome is an
`Except` argument and the clock value a `String` argument.  The JavaScript
`Map` keyed by `id` is modelled as a list in insertion order; `Map.set` on an
existing key merges pointwise at the entries carrying that key.  The jsonb
`structure` column is a Lean keyword and is never read by the orchestration
logic, so it is omitted from the record. -/
namespace Sync

structure InsertScript where
  title : String
  description : String
  model : String
  length : String
  tone : String
  style : String
  createdAt : String
deriving DecidableEq

structure Script where
  id : ℕ
  title : String
  description : String
  model : String
  length : String
  tone : String
  style : String
  createdAt : String
  currentIteration : ℤ
  totalIterations : ℤ
  status : String
deriving DecidableEq

structure InsertIteration where
  scriptId : ℕ
  iterationNumber : ℤ
  content : String
  status : String
  improvements : String
  createdAt : String
deriving DecidableEq

structure Iteration where
  id : ℕ
  scriptId : ℕ
  iterationNumber : ℤ
  content : String
  status : String
  improvements : String
  createdAt : String
deriving DecidableEq

/-- The in-memory store (`MemStorage`): two maps and two autoincrement
counters. -/
structure MemStorage where
  scripts : List Script
  iterations : List Iteration
  scriptCurrentId : ℕ
  iterationCurrentId : ℕ
deriving DecidableEq

/-- The freshly constructed store (`new MemStorage()`). -/
def MemStorage.empty : MemStorage := ⟨[], [], 1, 1⟩

def getScript (st : MemStorage) (id : ℕ) : Option Script :=
  st.scripts.find? (fun s => s.id == id)

def getIteration (st : MemStorage) (id : ℕ) : Option Iteration :=
  st.iterations.find? (fun it => it.id == id)

/-- `createScript`: assigns the next id and hardcodes `currentIteration: 0`,
`totalIterations: 4`, `status: "draft"`. -/
def createScript (st : MemStorage) (ins : InsertScript) : Script × MemStorage :=
  let id := st.scriptCurrentId
  let script : Script :=
    { id := id, title := ins.title, description := ins.description,
      model := ins.model, length := ins.length, tone := ins.tone,
      style := ins.style, createdAt := ins.createdAt,
      currentIteration := 0, totalIterations := 4, status := "draft" }
  (script, { st with scripts := st.scripts ++ [script], scriptCurrentId := id + 1 })

/-- The partial-update objects the routes pass to `updateScript`. -/
structure ScriptUpdate where
  currentIteration : Option ℤ := none
  status : Option String := none
deriving DecidableEq

/-- Shallow merge `{ ...script, ...updates }`. -/
def applyScriptUpdate (u : ScriptUpdate) (s : Script) : Script :=
  { s with currentIteration := u.currentIteration.getD s.currentIteration,
           status := u.status.getD s.status }

/-- `updateScript`: `undefined` if the id is unknown, otherwise merge and
store (`Map.set` on the existing key). -/
def updateScript (st : MemStorage) (id : ℕ) (u : ScriptUpdate) :
    Option Script × MemStorage :=
  match getScript st id with
  | none => (none, st)
  | some s =>
    (some (applyScriptUpdate u s),
      { st with scripts :=
          st.scripts.map (fun t => if t.id == id then applyScriptUpdate u t else t) })

/-- The partial-update objects the routes pass to `updateIteration`. -/
structure IterationUpdate where
  content : Option String := none
  status : Option String := none
deriving DecidableEq

def applyIterationUpdate (u : IterationUpdate) (it : Iteration) : Iteration :=
  { it with content := u.content.getD it.content,
            status := u.status.getD it.status }

def updateIteration (st : MemStorage) (id : ℕ) (u : IterationUpdate) :
    Option Iteration × MemStorage :=
  match getIteration st id with
  | none => (none, st)
  | some it =>
    (some (applyIterationUpdate u it),
      { st with iterations :=
          st.iterations.map (fun t => if t.id == id then applyIterationUpdate u t else t) })

/-- Stable insertion into a list sorted ascending by iteration number. -/
def insertByNumberAsc (x : Iteration) : List Iteration → List Iteration
  | [] => [x]
  | y :: ys =>
    if x.iterationNumber ≤ y.iterationNumber then x :: y :: ys
    else y :: insertByNumberAsc x ys

/-- Stable sort by ascending iteration number
(`.sort((a, b) => a.iterationNumber - b.iterationNumber)`). -/
def sortByNumberAsc : List Iteration → List Iteration
  | [] => []
  | x :: xs => insertByNumberAsc x (sortByNumberAsc xs)

/-- Stable insertion into a list sorted descending by iteration number. -/
def insertByNumberDesc (x : Iteration) : List Iteration → List Iteration
  | [] => [x]
  | y :: ys =>
    if x.iterationNumber ≥ y.iterationNumber then x :: y :: ys
    else y :: insertByNumberDesc x ys

/-- Stable sort by descending iteration number
(`.sort((a, b) => b.iterationNumber - a.iterationNumber)`). -/
def sortByNumberDesc : List Iteration → List Iteration
  | [] => []
  | x :: xs => insertByNumberDesc x (sortByNumberDesc xs)

/-- `getIterationsByScriptId`: filter by owning script, sorted ascending. -/
def getIterationsByScriptId (st : MemStorage) (sid : ℕ) : List Iteration :=
  sortByNumberAsc (st.iterations.filter (fun it => it.scriptId == sid))

/-- `{ ...insertIteration, id }` with the next autoincrement id. -/
def newIterationRecord (st : MemStorage) (ins : InsertIteration) : Iteration :=
  { id := st.iterationCurrentId, scriptId := ins.scriptId,
    iterationNumber := ins.iterationNumber, content := ins.content,
    status := ins.status, improvements := ins.improvements,
    createdAt := ins.createdAt }

/-- The store after the new iteration record is inserted, before the
owning-script side effect. -/
def insertIterationState (st : MemStorage) (ins : InsertIteration) : MemStorage :=
  { st with iterations := st.iterations ++ [newIterationRecord st ins],
            iterationCurrentId := st.iterationCurrentId + 1 }

/-- `createIteration` (ai-service.ts lines 205-220): store the new record,
then — when the script exists and the new number exceeds its
`currentIteration` — rewrite the owning script's progress fields. -/
def createIteration (st : MemStorage) (ins : InsertIteration) :
    Iteration × MemStorage :=
  let it : Iteration := newIterationRecord st ins
  let st1 : MemStorage := insertIterationState st ins
  match getScript st1 ins.scriptId with
  | some script =>
    if ins.iterationNumber > script.currentIteration then
      (it, (updateScript st1 ins.scriptId
        { currentIteration := some ins.iterationNumber,
          status := some (if ins.iterationNumber ≥ script.totalIterations
            then "completed" else "in_progress") }).2)
    else (it, st1)
  | none => (it, st1)

/-- `Math.max(...iterations.map(i => i.iterationNumber))`.  The empty case is
`-Infinity` in JavaScript; every call site guards it behind a
`length > 0` ternary, so the value chosen here is never observed. -/
def jsMaxList : List ℤ → ℤ
  | [] => 0
  | n :: ns => ns.foldl max n

/-- An HTTP outcome: status code and resulting store. -/
structure RouteResult where
  code : ℕ
  state : MemStorage
deriving DecidableEq

/-- `POST /api/scripts` (routes.ts lines 41-66): validation aside, create the
script with the request clock value. -/
def postScripts (st : MemStorage) (ins : InsertScript) : RouteResult :=
  ⟨201, (createScript st ins).2⟩

/-- `POST /api/scripts/:id/generate` (routes.ts lines 128-189): mark the
script in progress, call the adapter (outcome `gen`), store iteration #1 as
"completed", advance the script.  No check that iteration #1 already
exists. -/
def postGenerate (st : MemStorage) (scriptId : ℕ)
    (gen : Except Unit String) (now : String) : RouteResult :=
  match getScript st scriptId with
  | none => ⟨404, st⟩
  | some _ =>
    let st1 := (updateScript st scriptId
      { status := some "in_progress", currentIteration := some 0 }).2
    match gen with
    | .error _ => ⟨500, st1⟩
    | .ok content =>
      let st2 := (createIteration st1
        { scriptId := scriptId, iterationNumber := 1, content := content,
          status := "completed", improvements := "Initial script generation",
          createdAt := now }).2
      let st3 := (updateScript st2 scriptId
        { currentIteration := some 1, status := some "in_progress" }).2
      ⟨200, st3⟩

/-- `POST /api/scripts/:id/improve` (routes.ts lines 192-276): next number is
`max(existing numbers) + 1`; reject with 400 when it exceeds
`totalIterations` or when no prior iteration exists; otherwise call the
adapter (outcome `gen` carrying content and improvements), store the new
"completed" iteration and advance the script. -/
def postImprove (st : MemStorage) (scriptId : ℕ)
    (gen : Except Unit (String × String)) (now : String) : RouteResult :=
  match getScript st scriptId with
  | none => ⟨404, st⟩
  | some script =>
    let iterations := getIterationsByScriptId st scriptId
    let nextIterationNumber : ℤ :=
      if iterations.length > 0 then jsMaxList (iterations.map (·.iterationNumber)) + 1 else 1
    if nextIterationNumber > script.totalIterations then ⟨400, st⟩
    else
      match sortByNumberDesc iterations with
      | [] => ⟨400, st⟩
      | _ :: _ =>
        match gen with
        | .error _ => ⟨500, st⟩
        | .ok (content, improvements) =>
          let st1 := (createIteration st
            { scriptId := scriptId, iterationNumber := nextIterationNumber,
              content := content, status := "completed",
              improvements := improvements, createdAt := now }).2
          let st2 := (updateScript st1 scriptId
            { currentIteration := some nextIterationNumber,
              status := some (if nextIterationNumber ≥ script.totalIterations
                then "completed" else "in_progress") }).2
          ⟨200, st2⟩

/-- `PATCH /api/iterations/:id` (routes.ts lines 279-301): 400 on missing or
empty content (JavaScript falsiness), 404 on unknown iteration, otherwise
update the content only. -/
def patchIteration (st : MemStorage) (id : ℕ) (content : String) : RouteResult :=
  if content = "" then ⟨400, st⟩
  else
    match getIteration st id with
    | none => ⟨404, st⟩
    | some _ => ⟨200, (updateIteration st id { content := some content }).2⟩

/-- The orchestrator operations of the claims, as API calls. -/
inductive Op
  | createScript (ins : InsertScript)
  | generate (scriptId : ℕ) (gen : Except Unit String) (now : String)
  | improve (scriptId : ℕ) (gen : Except Unit (String × String)) (now : String)
  | editIteration (id : ℕ) (content : String)

def applyOp (st : MemStorage) : Op → MemStorage
  | .createScript ins => (postScripts st ins).state
  | .generate sid gen now => (postGenerate st sid gen now).state
  | .improve sid gen now => (postImprove st sid gen now).state
  | .editIteration id content => (patchIteration st id content).state

def runOps (st : MemStorage) : List Op → MemStorage
  | [] => st
  | op :: rest => runOps (applyOp st op) rest

/-- The iteration numbers of a script, in the order the read endpoint reports
them (sorted ascending). -/
def iterationNumbersOf (st : MemStorage) (sid : ℕ) : List ℤ :=
  (getIterationsByScriptId st sid).map (·.iterationNumber)

/-- The gapless sequence `[1, …, k]`. -/
def ascSeq (k : ℕ) : List ℤ := (List.range k).map (fun i : ℕ => (i : ℤ) + 1)

/-- The numbers of the iterations a script owns, in store order. -/
def rawNumbersOf (st : MemStorage) (sid : ℕ) : List ℤ :=
  (st.iterations.filter (fun it => it.scriptId == sid)).map (·.iterationNumber)

/-- `true` when a script owns no iterations yet (the precondition under which
the amended C1 allows `StartInitialGeneration`). -/
def noPriorIterations (st : MemStorage) (sid : ℕ) : Bool :=
  (st.iterations.filter (fun it => it.scriptId == sid)).isEmpty

/-- The precondition the amended C1 places on one operation: `generate` may
only target a script that has no iterations yet (the idempotency guard the
spec assumes); the other operations are unrestricted. -/
def opPrecondition (st : MemStorage) : Op → Bool
  | .generate sid _ _ => noPriorIterations st sid
  | _ => true

/-- A trace is good when every operation meets its precondition in the state
it executes in. -/
def goodOps (st : MemStorage) : List Op → Bool
  | [] => true
  | op :: rest => opPrecondition st op && goodOps (applyOp st op) rest

/-! ### The store invariant behind claim C1 -/
/-- The inductive invariant: script ids are below the script counter, every
iteration references a script id below that counter, created scripts carry
the hardcoded total of 4, and the numbers of each script's iterations (in
store order) are exactly `[1, …, k]` for some `k` within the total. -/
structure StoreInv (st : MemStorage) : Prop where
  script_id_lt : ∀ s ∈ st.scripts, s.id < st.scriptCurrentId
  iter_sid_lt : ∀ it ∈ st.iterations, it.scriptId < st.scriptCurrentId
  total_eq : ∀ s ∈ st.scripts, s.totalIterations = 4
  nums_asc : ∀ s ∈ st.scripts, ∃ k : ℕ,
    (k : ℤ) ≤ s.totalIterations ∧ rawNumbersOf st s.id = ascSeq k

end Sync

/-! ## Asynchronous variant: the route file src/unnamed/part_006 over its
`MemStorage` (ai-service.ts third document, lines 238-381) and the adapters of
src/unnamed/part_004.

The `users` table is never touched by the orchestration logic and is omitted.
The jsonb `structure` column is a Lean keyword and is renamed
`structureText`.  `createdAt` is assigned by the storage from a clock value
threaded through as an explicit `now` argument.  The adapter calls are
external: their outcomes are arguments of `generateScriptContent`. -/
namespace Async

/-- The `settings` bundle (`scriptSettingsSchema`). -/
structure ScriptSettings where
  reduceRedundancy : Bool
  enhanceClarity : Bool
  improveEngagement : Bool
deriving DecidableEq

structure InsertScript where
  userId : ℕ
  title : String
  instructions : String
  structureText : String
  aiModel : String
  tone : String
  length : ℤ
  iterations : ℤ
  settings : Option ScriptSettings
deriving DecidableEq

structure Script where
  id : ℕ
  userId : ℕ
  title : String
  instructions : String
  structureText : String
  aiModel : String
  tone : String
  length : ℤ
  iterations : ℤ
  settings : Option ScriptSettings
  createdAt : String
deriving DecidableEq

/-- The metrics jsonb attached to an iteration by `generateScriptContent`. -/
structure Metrics where
  wordCount : ℤ
  estimatedDuration : ℤ
  readabilityScore : Option ℤ
  redundancyReduction : Option ℤ
  improvementAreas : Option (List String)
deriving DecidableEq

structure InsertIteration where
  scriptId : ℕ
  iterationNumber : ℤ
  content : String
  status : String
  metrics : Option Metrics
deriving DecidableEq

structure ScriptIteration where
  id : ℕ
  scriptId : ℕ
  iterationNumber : ℤ
  content : String
  status : String
  metrics : Option Metrics
  createdAt : String
deriving DecidableEq

/-- The in-memory store of the asynchronous variant. -/
structure MemStorage where
  scripts : List Script
  scriptIterations : List ScriptIteration
  scriptId : ℕ
  iterationId : ℕ
deriving DecidableEq

def getScript (st : MemStorage) (id : ℕ) : Option Script :=
  st.scripts.find? (fun s => s.id == id)

def getScriptIteration (st : MemStorage) (id : ℕ) : Option ScriptIteration :=
  st.scriptIterations.find? (fun it => it.id == id)

/-- Stable insertion into a list sorted ascending by iteration number. -/
def insertIterAsc (x : ScriptIteration) : List ScriptIteration → List ScriptIteration
  | [] => [x]
  | y :: ys =>
    if x.iterationNumber ≤ y.iterationNumber then x :: y :: ys
    else y :: insertIterAsc x ys

/-- Stable sort by ascending iteration number
(`.sort((a, b) => a.iterationNumber - b.iterationNumber)`). -/
def sortIterAsc : List ScriptIteration → List ScriptIteration
  | [] => []
  | x :: xs => insertIterAsc x (sortIterAsc xs)

/-- `getScriptIterations`: filter by owning script, sorted ascending. -/
def getScriptIterations (st : MemStorage) (sid : ℕ) : List ScriptIteration :=
  sortIterAsc (st.scriptIterations.filter (fun it => it.scriptId == sid))

/-- `createScriptIteration`: next autoincrement id, `createdAt` from the
clock. -/
def createScriptIteration (st : MemStorage) (ins : InsertIteration)
    (now : String) : ScriptIteration × MemStorage :=
  let it : ScriptIteration :=
    { id := st.iterationId, scriptId := ins.scriptId,
      iterationNumber := ins.iterationNumber, content := ins.content,
      status := ins.status, metrics := ins.metrics, createdAt := now }
  (it, { st with scriptIterations := st.scriptIterations ++ [it],
                 iterationId := st.iterationId + 1 })

/-- The partial updates `generateScriptContent` and the PUT endpoint pass to
`updateScriptIteration`; an absent key leaves the stored field alone. -/
structure IterationUpdate where
  content : Option String := none
  status : Option String := none
  metrics : Option (Option Metrics) := none
deriving DecidableEq

/-- Shallow merge `{ ...iteration, ...iterationUpdate }`. -/
def applyIterationUpdate (u : IterationUpdate) (it : ScriptIteration) :
    ScriptIteration :=
  { it with content := u.content.getD it.content,
            status := u.status.getD it.status,
            metrics := u.metrics.getD it.metrics }

def updateScriptIteration (st : MemStorage) (id : ℕ) (u : IterationUpdate) :
    Option ScriptIteration × MemStorage :=
  match getScriptIteration st id with
  | none => (none, st)
  | some it =>
    (some (applyIterationUpdate u it),
      { st with scriptIterations :=
          st.scriptIterations.map (fun t => if t.id == id then applyIterationUpdate u t else t) })

/-- An HTTP outcome of this variant: status code and resulting store. -/
structure RouteResult where
  code : ℕ
  state : MemStorage
deriving DecidableEq

/-- `startScriptGeneration` (part_006 lines 232-248): create iteration #1 in
"in_progress" state — with no check whether one already exists — and fire the
asynchronous generation task. -/
def startScriptGeneration (st : MemStorage) (script : Script) (now : String) :
    ScriptIteration × MemStorage :=
  createScriptIteration st
    { scriptId := script.id, iterationNumber := 1,
      content := "Generating script...", status := "in_progress",
      metrics := none } now

/-- `POST /api/scripts/:id/iterations` (part_006 lines 94-117): the next
number is `existingIterations.length + 1`; reject with 400 when it would
exceed the script's requested `iterations`; otherwise create the new
"in_progress" iteration (the asynchronous task is fired afterwards). -/
def postIterations (st : MemStorage) (sid : ℕ) (now : String) : RouteResult :=
  match getScript st sid with
  | none => ⟨404, st⟩
  | some script =>
    let existingIterations := getScriptIterations st sid
    let nextIterationNumber : ℤ := existingIterations.length + 1
    if nextIterationNumber > script.iterations then ⟨400, st⟩
    else
      ⟨201, (createScriptIteration st
        { scriptId := sid, iterationNumber := nextIterationNumber,
          content := "Generating next iteration...", status := "in_progress",
          metrics := none } now).2⟩

/-- `PUT /api/scripts/:id/iterations/:iterationId` (part_006 lines 194-229):
400 on empty content (zod `min(1)`), 404 on unknown script, unknown iteration
or mismatched pairing; otherwise overwrite the content and force the status
to "completed". -/
def putIteration (st : MemStorage) (sid itId : ℕ) (content : String) :
    RouteResult :=
  if content = "" then ⟨400, st⟩
  else
    match getScript st sid with
    | none => ⟨404, st⟩
    | some _ =>
      match getScriptIteration st itId with
      | none => ⟨404, st⟩
      | some it =>
        if it.scriptId == sid then
          ⟨200, (updateScriptIteration st itId
            { content := some content, status := some "completed" }).2⟩
        else ⟨404, st⟩

/-- The outcome of the `compareScripts` adapter call (which never throws:
both adapters catch internally and fall back to zero/placeholder values). -/
structure CompareResult where
  redundancyReduction : ℤ
  improvementAreas : List String
deriving DecidableEq

/-- `generateScriptContent` (part_006 lines 271-338), the asynchronous task.
The adapter generate/improve call outcome is `gen`; the provider scoring
outcome feeds `analysis` (see `analyzeScript`); `comparison` is the compare
outcome.  The whole body is wrapped in try/catch: on any adapter error the
task swallows it and records the fixed placeholder with status "failed" — the
function is total, nothing propagates past the task boundary. -/
def generateScriptContent (st : MemStorage) (iterationId : ℕ)
    (previousIterations : List ScriptIteration)
    (gen : Except Unit String)
    (analysis : Option ProviderAnalysis)
    (comparison : CompareResult) : MemStorage :=
  match gen with
  | .error _ =>
    (updateScriptIteration st iterationId
      { content := some "Error generating script content.",
        status := some "failed" }).2
  | .ok content =>
    let prevContents := (previousIterations.filter
      (fun it => it.status == "completed")).map (·.content)
    let base := analyzeScript content analysis
    let metrics : Metrics :=
      if prevContents.length > 0 then
        { wordCount := base.wordCount,
          estimatedDuration := base.estimatedDuration,
          readabilityScore := base.readabilityScore,
          redundancyReduction := some comparison.redundancyReduction,
          improvementAreas := some comparison.improvementAreas }
      else
        { wordCount := base.wordCount,
          estimatedDuration := base.estimatedDuration,
          readabilityScore := base.readabilityScore,
          redundancyReduction := none,
          improvementAreas := none }
    (updateScriptIteration st iterationId
      { content := some content, status := some "completed",
        metrics := some (some metrics) }).2

end Async

/-! ## Export formatter (src/unnamed/part_005)

The three format functions post-process the script content with JavaScript
regex replacements.  Each `String.replace(pattern, f)` with the `g` flag is
embedded as a left-to-right scanner over `List Char` that replaces leftmost
non-overlapping matches; the scanners are structural on a fuel argument that
starts at the list length (each step consumes at least one character, so the
fuel never runs out — the lemmas below carry the needed fuel bounds). -/
namespace Export

/-- Greedy `\d+`-style scan: the longest digit run and the remainder. -/
def takeDigits : List Char → List Char × List Char
  | [] => ([], [])
  | c :: rest =>
    if c.isDigit then
      let (ds, r) := takeDigits rest
      (c :: ds, r)
    else ([], c :: rest)

/-- Match `\(\d+:\d+(?:-\d+:\d+)?\)` at the head of the list, returning the
matched text and the remainder.  Greedy digit runs plus the optional-group
backtracking of the JavaScript engine collapse to this deterministic check:
after the second digit run, `)` closes the short form, `-` commits to the
long form. -/
def matchTimestampAt : List Char → Option (List Char × List Char)
  | '(' :: r1 =>
    match takeDigits r1 with
    | ([], _) => none
    | (d1, r2) =>
      match r2 with
      | ':' :: r3 =>
        match takeDigits r3 with
        | ([], _) => none
        | (d2, r4) =>
          match r4 with
          | ')' :: r5 => some ('(' :: (d1 ++ ':' :: d2 ++ [')']), r5)
          | '-' :: r5 =>
            match takeDigits r5 with
            | ([], _) => none
            | (d3, r6) =>
              match r6 with
              | ':' :: r7 =>
                match takeDigits r7 with
                | ([], _) => none
                | (d4, r8) =>
                  match r8 with
                  | ')' :: r9 =>
                    some ('(' :: (d1 ++ ':' :: d2 ++ '-' :: d3 ++ ':' :: d4
                      ++ [')']), r9)
                  | _ => none
              | _ => none
          | _ => none
      | _ => none
  | _ => none

/-- Generic `String.replace(re, f)` with the `g` flag: scan left to right; a
match at the current position is replaced by `emit payload` and scanning
resumes after it; otherwise one character is copied.  Structural on fuel. -/
def scanReplaceGo (m : List Char → Option (List Char × List Char))
    (emit : List Char → List Char) : ℕ → List Char → List Char
  | 0, l => l
  | _ + 1, [] => []
  | fuel + 1, c :: rest =>
    match m (c :: rest) with
    | some (payload, after) => emit payload ++ scanReplaceGo m emit fuel after
    | none => c :: scanReplaceGo m emit fuel rest

def scanReplace (m : List Char → Option (List Char × List Char))
    (emit : List Char → List Char) (l : List Char) : List Char :=
  scanReplaceGo m emit l.length l

/-- Match `^##\s.*$` at a line start under the `m` flag: two hashes, one
whitespace-class character, then the rest of the line (`.` does not cross a
newline; `$` holds right before the newline or at the end).  Returns the
remainder after the match. -/
def matchSectionLineAt : List Char → Option (List Char)
  | '#' :: '#' :: w :: rest =>
    if isJsSpace w then some (rest.dropWhile (fun c => !(c == '\n'))) else none
  | _ => none

/-- `formattedScript.replace(/^##\s.*$/gm, '')`: the scanner tracks whether
the current position is a line start (the start of the text or the position
right after a newline). -/
def removeSectionLinesGo : ℕ → Bool → List Char → List Char
  | 0, _, l => l
  | _ + 1, _, [] => []
  | fuel + 1, atLineStart, c :: rest =>
    if atLineStart then
      match matchSectionLineAt (c :: rest) with
      | some after => removeSectionLinesGo fuel false after
      | none => c :: removeSectionLinesGo fuel (c == '\n') rest
    else c :: removeSectionLinesGo fuel (c == '\n') rest

def removeSectionLines (l : List Char) : List Char :=
  removeSectionLinesGo l.length true l

/-- Match `^##\s(.*?)$` at a line start, returning the captured line rest and
the remainder (markdown variant). -/
def matchSectionLineCapAt : List Char → Option (List Char × List Char)
  | '#' :: '#' :: w :: rest =>
    if isJsSpace w then
      some (rest.takeWhile (fun c => !(c == '\n')),
            rest.dropWhile (fun c => !(c == '\n')))
    else none
  | _ => none

/-- `formattedScript.replace(/^##\s(.*?)$/gm, '**$1**')`. -/
def mdSectionLinesGo : ℕ → Bool → List Char → List Char
  | 0, _, l => l
  | _ + 1, _, [] => []
  | fuel + 1, atLineStart, c :: rest =>
    if atLineStart then
      match matchSectionLineCapAt (c :: rest) with
      | some (cap, after) =>
        '*' :: '*' :: (cap ++ '*' :: '*' :: mdSectionLinesGo fuel false after)
      | none => c :: mdSectionLinesGo fuel (c == '\n') rest
    else c :: mdSectionLinesGo fuel (c == '\n') rest

def mdSectionLines (l : List Char) : List Char :=
  mdSectionLinesGo l.length true l

/-- Scan for the closing `**` of a lazy `(.*?)` capture (`.` does not match a
newline), returning the capture and the remainder after the closing stars. -/
def findBoldClose : List Char → Option (List Char × List Char)
  | '*' :: '*' :: r => some ([], r)
  | [] => none
  | c :: r =>
    if c == '\n' then none
    else
      match findBoldClose r with
      | some (cap, after) => some (c :: cap, after)
      | none => none

/-- Match `\*\*(.*?)\*\*` at the head. -/
def matchBoldAt : List Char → Option (List Char × List Char)
  | '*' :: '*' :: r => findBoldClose r
  | _ => none

/-- Scan for the closing `*` of a lazy single-star capture. -/
def findItalicClose : List Char → Option (List Char × List Char)
  | '*' :: r => some ([], r)
  | [] => none
  | c :: r =>
    if c == '\n' then none
    else
      match findItalicClose r with
      | some (cap, after) => some (c :: cap, after)
      | none => none

/-- Match `\*(.*?)\*` at the head. -/
def matchItalicAt : List Char → Option (List Char × List Char)
  | '*' :: r => findItalicClose r
  | _ => none

/-- Match the case-insensitive literal `\[pause\]` at the head (the brackets
have no case; only the letters are case-insensitive). -/
def matchPauseAt : List Char → Option (List Char × List Char)
  | '[' :: c1 :: c2 :: c3 :: c4 :: c5 :: ']' :: rest =>
    if [c1, c2, c3, c4, c5].map Char.toLower = ['p', 'a', 'u', 's', 'e']
    then some ('[' :: c1 :: c2 :: c3 :: c4 :: c5 :: [']'], rest)
    else none
  | _ => none

/-- Match the case-insensitive literal `\[emphasis\]` at the head. -/
def matchEmphasisAt : List Char → Option (List Char × List Char)
  | '[' :: c1 :: c2 :: c3 :: c4 :: c5 :: c6 :: c7 :: c8 :: ']' :: rest =>
    if [c1, c2, c3, c4, c5, c6, c7, c8].map Char.toLower =
        ['e', 'm', 'p', 'h', 'a', 's', 'i', 's']
    then some ('[' :: c1 :: c2 :: c3 :: c4 :: c5 :: c6 :: c7 :: c8 :: [']'],
      rest)
    else none
  | _ => none

/-- The four replacements of the `formatForTalent` branch, in source order. -/
def talentFormat (l : List Char) : List Char :=
  scanReplace matchEmphasisAt
    (fun _ => "<span class=\"talent-note\">[EMPHASIS]</span>".data)
    (scanReplace matchPauseAt
      (fun _ => "<span class=\"talent-note\">[PAUSE]</span>".data)
      (scanReplace matchItalicAt
        (fun cap => "<em>".data ++ cap ++ "</em>".data)
        (scanReplace matchBoldAt
          (fun cap => "<strong>".data ++ cap ++ "</strong>".data) l)))

/-- The export settings fields these functions read (`exportSettingsSchema`;
the sharing/email toggles are never consulted here and are omitted). -/
structure ExportSettings where
  format : String
  includeMetadata : Bool
  includeTimestamps : Bool
  includeSections : Bool
  formatForTalent : Bool
deriving DecidableEq

/-- The `<span class="timestamp">…</span>` wrapper. -/
def wrapTimestamp (m : List Char) : List Char :=
  "<span class=\"timestamp\">".data ++ m ++ "</span>".data

/-- The fixed HTML document head up to and including the `<h1>` title. -/
def htmlDocStart (title : String) : String :=
  "<!DOCTYPE html>\n<html>\n<head>\n  <meta charset=\"UTF-8\">\n  <title>"
    ++ title ++
    "</title>\n  <style>\n    body \x7b font-family: Arial, sans-serif; margin: 20px; \x7d\n    h1 \x7b color: #333; \x7d\n    .metadata \x7b color: #666; font-size: 12px; margin-bottom: 20px; \x7d\n    .script \x7b font-family: \x27Courier New\x27, monospace; line-height: 1.5; white-space: pre-wrap; \x7d\n    .timestamp \x7b color: #0066cc; font-weight: bold; \x7d\n    .section \x7b font-weight: bold; margin-top: 20px; \x7d\n    .talent-note \x7b color: #cc6600; font-style: italic; \x7d\n  </style>\n</head>\n<body>\n  <h1>"
    ++ title ++ "</h1>"

/-- The metadata `<div>` block, emitted when the toggle is set and metadata
was supplied. -/
def htmlMetadataBlock (settings : ExportSettings)
    (metadata : Option (List (String × String))) : String :=
  match metadata with
  | none => ""
  | some md =>
    if settings.includeMetadata then
      "<div class=\"metadata\">" ++
        String.join (md.map (fun kv =>
          "<div><strong>" ++ kv.1 ++ "</strong>: " ++ kv.2 ++ "</div>")) ++
        "</div>"
    else ""

/-- Everything `scriptToHtml` emits before the processed script content. -/
def htmlHead (title : String) (settings : ExportSettings)
    (metadata : Option (List (String × String))) : String :=
  htmlDocStart title ++ htmlMetadataBlock settings metadata
    ++ "<div class=\"script\">"

/-- The closing part of the HTML document. -/
def htmlTail : String := "</div>\n</body>\n</html>"

/-- `scriptToHtml` (part_005 lines 4-74). -/
def scriptToHtml (script title : String) (settings : ExportSettings)
    (metadata : Option (List (String × String))) : String :=
  let f1 := if settings.includeSections then script.data
    else removeSectionLines script.data
  let f2 := if settings.includeTimestamps then
      scanReplace matchTimestampAt wrapTimestamp f1
    else scanReplace matchTimestampAt (fun _ => []) f1
  let f3 := if settings.formatForTalent then talentFormat f2 else f2
  htmlHead title settings metadata ++ String.mk f3 ++ htmlTail

/-- Everything `scriptToText` emits before the processed script content. -/
def textHead (title : String) (settings : ExportSettings)
    (metadata : Option (List (String × String))) : String :=
  title ++ "\n" ++ String.mk (List.replicate title.length '=') ++ "\n\n" ++
    (match metadata with
     | none => ""
     | some md =>
       if settings.includeMetadata then
         String.join (md.map (fun kv => kv.1 ++ ": " ++ kv.2 ++ "\n")) ++ "\n"
       else "")

/-- `scriptToText` (part_005 lines 77-113). -/
def scriptToText (script title : String) (settings : ExportSettings)
    (metadata : Option (List (String × String))) : String :=
  let f1 := if !settings.includeSections then removeSectionLines script.data
    else script.data
  let f2 := if !settings.includeTimestamps then
      scanReplace matchTimestampAt (fun _ => []) f1
    else f1
  textHead title settings metadata ++ String.mk f2

/-- Everything `scriptToMarkdown` emits before the processed script
content. -/
def mdHead (title : String) (settings : ExportSettings)
    (metadata : Option (List (String × String))) : String :=
  "# " ++ title ++ "\n\n" ++
    (match metadata with
     | none => ""
     | some md =>
       if settings.includeMetadata then
         "## Metadata\n\n" ++
           String.join (md.map (fun kv =>
             "**" ++ kv.1 ++ "**: " ++ kv.2 ++ "\n")) ++ "\n"
       else "")

/-- `scriptToMarkdown` (part_005 lines 116-152). -/
def scriptToMarkdown (script title : String) (settings : ExportSettings)
    (metadata : Option (List (String × String))) : String :=
  let f1 := if !settings.includeSections && jsIncludes (String.mk script.data) "##"
    then mdSectionLines script.data
    else script.data
  let f2 := if !settings.includeTimestamps then
      scanReplace matchTimestampAt (fun _ => []) f1
    else f1
  mdHead title settings metadata ++ String.mk f2

/-- `exportScript` (part_005 lines 155-173): format dispatch; an unsupported
format throws. -/
def exportScript (script title format : String) (settings : ExportSettings)
    (metadata : Option (List (String × String))) : Except String String :=
  if format = "google_docs" ∨ format = "word" then
    .ok (scriptToHtml script title settings metadata)
  else if format = "text" then
    .ok (scriptToText script title settings metadata)
  else if format = "markdown" then
    .ok (scriptToMarkdown script title settings metadata)
  else .error ("Unsupported export format: " ++ format)

/-- A well-formed timestamp token — the texts the pattern
`\(\d+:\d+(?:-\d+:\d+)?\)` matches in full. -/
inductive IsTs : List Char → Prop
  | short (d1 d2 : List Char) (h1 : d1 ≠ []) (h2 : d2 ≠ [])
      (hd1 : ∀ c ∈ d1, c.isDigit) (hd2 : ∀ c ∈ d2, c.isDigit) :
      IsTs ('(' :: (d1 ++ ':' :: d2 ++ [')']))
  | long (d1 d2 d3 d4 : List Char) (h1 : d1 ≠ []) (h2 : d2 ≠ [])
      (h3 : d3 ≠ []) (h4 : d4 ≠ [])
      (hd1 : ∀ c ∈ d1, c.isDigit) (hd2 : ∀ c ∈ d2, c.isDigit)
      (hd3 : ∀ c ∈ d3, c.isDigit) (hd4 : ∀ c ∈ d4, c.isDigit) :
      IsTs ('(' :: (d1 ++ ':' :: d2 ++ '-' :: d3 ++ ':' :: d4 ++ [')']))

/-- Content assembled as a plain prefix followed by alternating timestamp
tokens and plain segments. -/
def assembleSegs (s0 : List Char) (segs : List (List Char × List Char)) :
    List Char :=
  s0 ++ segs.foldr (fun p acc => p.1 ++ p.2 ++ acc) []

/-- The same content with every timestamp token deleted. -/
def concatPlain (s0 : List Char) (segs : List (List Char × List Char)) :
    List Char :=
  s0 ++ segs.foldr (fun p acc => p.2 ++ acc) []

/-- The same content with every timestamp token passed through `f`. -/
def assembleWith (f : List Char → List Char) (s0 : List Char)
    (segs : List (List Char × List Char)) : List Char :=
  s0 ++ segs.foldr (fun p acc => f p.1 ++ p.2 ++ acc) []

/-- A plain segment that cannot interfere with any of the post-processing
passes: no timestamp opener, no section marker, no talent markup. -/
def PlainSeg (l : List Char) : Prop :=
  '(' ∉ l ∧ '#' ∉ l ∧ '*' ∉ l ∧ '[' ∉ l

end Export

/-! ## Concrete states used by counterexamples and witnesses (Sync variant) -/
/-- A sample script-creation payload. -/
def sampleInsert : Sync.InsertScript :=
  ⟨"My Script", "About things", "gpt-4o", "short", "casual", "tutorial", "2025-01-01"⟩

/-- Create a script, then start the initial generation twice. -/
def doubleStartTrace : List Sync.Op :=
  [.createScript sampleInsert, .generate 1 (.ok "draft one") "t1",
   .generate 1 (.ok "draft two") "t2"]

/-- A well-behaved trace: create, one initial generation, one improvement,
one manual edit. -/
def goodTrace : List Sync.Op :=
  [.createScript sampleInsert, .generate 1 (.ok "draft one") "t1",
   .improve 1 (.ok ("draft two", "improved flow")) "t2",
   .editIteration 1 "my edit"]

/-- The store after script creation only. -/
def createdOnlyState : Sync.MemStorage :=
  Sync.runOps Sync.MemStorage.empty [.createScript sampleInsert]

/-- The store after script creation and one successful initial generation. -/
def oneStartState : Sync.MemStorage :=
  Sync.runOps Sync.MemStorage.empty
    [.createScript sampleInsert, .generate 1 (.ok "draft one") "t1"]

/-- The store after script creation and four successful initial generations:
four iterations, all numbered 1. -/
def fourStartsState : Sync.MemStorage :=
  Sync.runOps Sync.MemStorage.empty
    [.createScript sampleInsert, .generate 1 (.ok "a") "t1",
     .generate 1 (.ok "b") "t2", .generate 1 (.ok "c") "t3",
     .generate 1 (.ok "d") "t4"]

/-- The sample script as stored right after creation. -/
def sampleScriptDraft : Sync.Script :=
  { id := 1, title := "My Script", description := "About things",
    model := "gpt-4o", length := "short", tone := "casual", style := "tutorial",
    createdAt := "2025-01-01", currentIteration := 0, totalIterations := 4,
    status := "draft" }

/-- The sample script after one (or more) initial generations. -/
def sampleScriptStarted : Sync.Script :=
  { sampleScriptDraft with currentIteration := 1, status := "in_progress" }

/-- The property claim C1 asserts of a store: every script's iteration
numbers are exactly `[1, …, k]` for some `k` within its requested total. -/
def claimC1 (st : Sync.MemStorage) : Prop :=
  ∀ s ∈ st.scripts, ∃ k : ℕ, (k : ℤ) ≤ s.totalIterations ∧
    Sync.iterationNumbersOf st s.id = Sync.ascSeq k

/-- How many iterations numbered 1 a script owns. -/
def iterationOneCount (st : Sync.MemStorage) (sid : ℕ) : ℕ :=
  (st.iterations.filter
    (fun it => it.scriptId == sid && it.iterationNumber == (1 : ℤ))).length

/-! ## Concrete states of the asynchronous variant -/
/-- A sample script of the asynchronous variant, requesting 2 iterations. -/
def asyncScript : Async.Script :=
  { id := 1, userId := 1, title := "T", instructions := "Write about things",
    structureText := "", aiModel := "gpt-4o", tone := "casual", length := 1,
    iterations := 2, settings := none, createdAt := "t0" }

def asyncIter1 : Async.ScriptIteration :=
  { id := 1, scriptId := 1, iterationNumber := 1, content := "draft one",
    status := "completed", metrics := none, createdAt := "t1" }

def asyncIter2 : Async.ScriptIteration :=
  { id := 2, scriptId := 1, iterationNumber := 2, content := "draft two",
    status := "completed", metrics := none, createdAt := "t2" }

/-- A store whose script owns as many iterations as it requested. -/
def asyncAtCapState : Async.MemStorage :=
  { scripts := [asyncScript], scriptIterations := [asyncIter1, asyncIter2],
    scriptId := 2, iterationId := 3 }

def asyncIterInProgress : Async.ScriptIteration :=
  { id := 1, scriptId := 1, iterationNumber := 1,
    content := "Generating script...", status := "in_progress",
    metrics := none, createdAt := "t1" }

/-- A store with one iteration still in progress. -/
def asyncInProgressState : Async.MemStorage :=
  { scripts := [asyncScript], scriptIterations := [asyncIterInProgress],
    scriptId := 2, iterationId := 2 }

def syncIterInProgress : Sync.Iteration :=
  { id := 1, scriptId := 1, iterationNumber := 1, content := "old",
    status := "in_progress", improvements := "", createdAt := "t1" }

/-- A synchronous-variant store holding an iteration whose status is
"in_progress". -/
def syncInProgressState : Sync.MemStorage :=
  { scripts := [sampleScriptStarted], iterations := [syncIterInProgress],
    scriptCurrentId := 2, iterationCurrentId := 2 }

/-- The one-timestamp sample content "Hello (1:23-1:45) world", split as a
plain head followed by one timestamp token and one plain tail. -/
def tsSegs : List (List Char × List Char) :=
  [("(1:23-1:45)".data, " world".data)]

/-! ## Theorems -/

/-- `Map.set` on an existing key, seen through `find?`: lookup of `other`
commutes with the pointwise merge at key `id`. -/
theorem find?_map_update {α : Type} (key : α → ℕ) (g : α → α)
    (hg : ∀ a, key (g a) = key a) (l : List α) (id other : ℕ) :
    (l.map (fun a => if key a == id then g a else a)).find? (fun a => key a == other) =
      (l.find? (fun a => key a == other)).map
        (fun a => if key a == id then g a else a) := by
  induction l with
  | nil => rfl
  | cons a as ih =>
    simp only [List.map_cons, List.find?_cons]
    have hpres : (key (if key a == id then g a else a) == other) = (key a == other) := by
      split <;> simp [hg]
    rw [hpres]
    cases hp : (key a == other) with
    | true => simp
    | false => simpa using ih

namespace Sync

/-! ### List lemmas about the store primitives -/
theorem ascSeq_length (k : ℕ) : (ascSeq k).length = k := by
  unfold ascSeq
  rw [List.length_map, List.length_range]

theorem ascSeq_succ (k : ℕ) : ascSeq (k + 1) = ascSeq k ++ [(k : ℤ) + 1] := by
  simp [ascSeq, List.range_succ]

theorem ascSeq_ne_nil (k : ℕ) : ascSeq (k + 1) ≠ [] := by
  intro h
  have := congrArg List.length h
  simp [ascSeq_length] at this

theorem ascSeq_pairwise (k : ℕ) : (ascSeq k).Pairwise (· ≤ ·) := by
  unfold ascSeq
  rw [List.pairwise_map]
  refine List.Pairwise.imp ?_ (List.pairwise_lt_range k)
  intro a b h
  omega

theorem jsMaxList_append_singleton (l : List ℤ) (x : ℤ) (h : l ≠ []) :
    jsMaxList (l ++ [x]) = max (jsMaxList l) x := by
  cases l with
  | nil => exact absurd rfl h
  | cons n ns => simp [jsMaxList, List.foldl_append]

theorem jsMaxList_ascSeq (k : ℕ) : jsMaxList (ascSeq (k + 1)) = (k : ℤ) + 1 := by
  induction k with
  | zero => decide
  | succ m ih =>
    rw [ascSeq_succ (m + 1), jsMaxList_append_singleton _ _ (ascSeq_ne_nil m), ih]
    rw [max_eq_right (by push_cast; omega)]

theorem insertByNumberAsc_front (x : Iteration) (l : List Iteration)
    (h : ∀ y ∈ l, x.iterationNumber ≤ y.iterationNumber) :
    insertByNumberAsc x l = x :: l := by
  cases l with
  | nil => rfl
  | cons y ys =>
    rw [insertByNumberAsc, if_pos (h y (List.mem_cons_self y ys))]

theorem sortByNumberAsc_eq_self (l : List Iteration)
    (h : l.Pairwise (fun a b => a.iterationNumber ≤ b.iterationNumber)) :
    sortByNumberAsc l = l := by
  induction l with
  | nil => rfl
  | cons x xs ih =>
    rcases List.pairwise_cons.mp h with ⟨hx, hxs⟩
    rw [sortByNumberAsc, ih hxs, insertByNumberAsc_front x xs hx]

theorem length_insertByNumberDesc (x : Iteration) (l : List Iteration) :
    (insertByNumberDesc x l).length = l.length + 1 := by
  induction l with
  | nil => rfl
  | cons y ys ih =>
    rw [insertByNumberDesc]
    split
    · rfl
    · simp [ih]

theorem length_sortByNumberDesc (l : List Iteration) :
    (sortByNumberDesc l).length = l.length := by
  induction l with
  | nil => rfl
  | cons x xs ih =>
    rw [sortByNumberDesc, length_insertByNumberDesc, ih]
    rfl

theorem filter_map_numbers (f : Iteration → Iteration)
    (hsid : ∀ it, (f it).scriptId = it.scriptId)
    (hnum : ∀ it, (f it).iterationNumber = it.iterationNumber)
    (l : List Iteration) (sid : ℕ) :
    ((l.map f).filter (fun it => it.scriptId == sid)).map (·.iterationNumber) =
      (l.filter (fun it => it.scriptId == sid)).map (·.iterationNumber) := by
  induction l with
  | nil => rfl
  | cons a as ih =>
    simp only [List.map_cons, List.filter_cons, hsid]
    cases hp : (a.scriptId == sid) with
    | true => simp [hnum, ih]
    | false => simpa using ih

theorem storeInv_empty : StoreInv MemStorage.empty := by
  constructor <;> intro x hx <;> simp [MemStorage.empty] at hx

theorem find?_append_left {α : Type} (l1 l2 : List α) (p : α → Bool)
    (h : (l1.find? p).isSome) : (l1 ++ l2).find? p = l1.find? p := by
  induction l1 with
  | nil => simp [List.find?] at h
  | cons a as ih =>
    simp only [List.cons_append, List.find?_cons] at *
    cases hp : p a with
    | true => simp [hp]
    | false =>
      simp only [hp] at h ⊢
      exact ih h

theorem script_merge_id (u : ScriptUpdate) (id : ℕ) (t : Script) :
    (if t.id == id then applyScriptUpdate u t else t).id = t.id := by
  split <;> rfl

theorem script_merge_total (u : ScriptUpdate) (id : ℕ) (t : Script) :
    (if t.id == id then applyScriptUpdate u t else t).totalIterations =
      t.totalIterations := by
  split <;> rfl

theorem iter_merge_sid (u : IterationUpdate) (id : ℕ) (t : Iteration) :
    (if t.id == id then applyIterationUpdate u t else t).scriptId = t.scriptId := by
  split <;> rfl

theorem iter_merge_num (u : IterationUpdate) (id : ℕ) (t : Iteration) :
    (if t.id == id then applyIterationUpdate u t else t).iterationNumber =
      t.iterationNumber := by
  split <;> rfl

theorem storeInv_updateScript (st : MemStorage) (id : ℕ) (u : ScriptUpdate)
    (h : StoreInv st) : StoreInv (updateScript st id u).2 := by
  unfold updateScript
  cases hg : getScript st id with
  | none => exact h
  | some s =>
    refine ⟨?_, ?_, ?_, ?_⟩
    · intro s' hs'
      rcases List.mem_map.mp hs' with ⟨t, ht, rfl⟩
      rw [script_merge_id]
      exact h.script_id_lt t ht
    · exact h.iter_sid_lt
    · intro s' hs'
      rcases List.mem_map.mp hs' with ⟨t, ht, rfl⟩
      rw [script_merge_total]
      exact h.total_eq t ht
    · intro s' hs'
      rcases List.mem_map.mp hs' with ⟨t, ht, rfl⟩
      obtain ⟨k, hk1, hk2⟩ := h.nums_asc t ht
      refine ⟨k, ?_, ?_⟩
      · rw [script_merge_total]
        exact hk1
      · rw [script_merge_id]
        exact hk2

theorem storeInv_updateIteration (st : MemStorage) (id : ℕ) (u : IterationUpdate)
    (h : StoreInv st) : StoreInv (updateIteration st id u).2 := by
  unfold updateIteration
  cases hg : getIteration st id with
  | none => exact h
  | some it0 =>
    dsimp only
    refine ⟨h.script_id_lt, ?_, h.total_eq, ?_⟩
    · intro it' hit'
      rcases List.mem_map.mp hit' with ⟨t, ht, rfl⟩
      rw [iter_merge_sid]
      exact h.iter_sid_lt t ht
    · intro s hs
      obtain ⟨k, hk1, hk2⟩ := h.nums_asc s hs
      refine ⟨k, hk1, ?_⟩
      unfold rawNumbersOf
      dsimp only
      rw [filter_map_numbers _ (iter_merge_sid u id) (iter_merge_num u id)]
      exact hk2

theorem storeInv_createScript (st : MemStorage) (ins : InsertScript)
    (h : StoreInv st) : StoreInv (createScript st ins).2 := by
  unfold createScript
  refine ⟨?_, ?_, ?_, ?_⟩
  · intro s hs
    rcases List.mem_append.mp hs with hs | hs
    · exact Nat.lt_succ_of_lt (h.script_id_lt s hs)
    · simp only [List.mem_singleton] at hs
      subst hs
      exact Nat.lt_succ_self _
  · intro it hit
    exact Nat.lt_succ_of_lt (h.iter_sid_lt it hit)
  · intro s hs
    rcases List.mem_append.mp hs with hs | hs
    · exact h.total_eq s hs
    · simp only [List.mem_singleton] at hs
      subst hs
      rfl
  · intro s hs
    rcases List.mem_append.mp hs with hs | hs
    · exact h.nums_asc s hs
    · simp only [List.mem_singleton] at hs
      subst hs
      refine ⟨0, by norm_num, ?_⟩
      show (st.iterations.filter _).map (·.iterationNumber) = []
      rw [List.filter_eq_nil_iff.mpr ?_]
      · rfl
      · intro it hit
        have := h.iter_sid_lt it hit
        simp only [beq_iff_eq]
        omega

theorem storeInv_insertIterationState (st : MemStorage) (ins : InsertIteration)
    (k : ℕ) (h : StoreInv st)
    (hsid : ins.scriptId < st.scriptCurrentId)
    (hraw : rawNumbersOf st ins.scriptId = ascSeq k)
    (hnum : ins.iterationNumber = (k : ℤ) + 1)
    (hk : (k : ℤ) + 1 ≤ 4) :
    StoreInv (insertIterationState st ins) := by
  refine ⟨h.script_id_lt, ?_, h.total_eq, ?_⟩
  · intro it hit
    rcases List.mem_append.mp hit with hit | hit
    · exact h.iter_sid_lt it hit
    · simp only [List.mem_singleton] at hit
      subst hit
      exact hsid
  · intro s hs
    obtain ⟨k0, hk1, hk2⟩ := h.nums_asc s hs
    by_cases hid : s.id = ins.scriptId
    · refine ⟨k + 1, ?_, ?_⟩
      · rw [h.total_eq s hs]
        exact hk
      · show ((st.iterations ++ [newIterationRecord st ins]).filter _).map
          (·.iterationNumber) = _
        rw [List.filter_append]
        have hmatch : List.filter (fun it => it.scriptId == s.id)
            [newIterationRecord st ins] = [newIterationRecord st ins] := by
          simp [List.filter, newIterationRecord, hid]
        rw [hmatch, List.map_append]
        have hbase : rawNumbersOf st s.id = ascSeq k := by
          rw [hid]
          exact hraw
        rw [show ((st.iterations.filter (fun it => it.scriptId == s.id)).map
            (·.iterationNumber)) = ascSeq k from hbase]
        rw [ascSeq_succ]
        simp [newIterationRecord, hnum]
    · refine ⟨k0, hk1, ?_⟩
      show ((st.iterations ++ [newIterationRecord st ins]).filter _).map
        (·.iterationNumber) = _
      rw [List.filter_append]
      have hnomatch : List.filter (fun it => it.scriptId == s.id)
          [newIterationRecord st ins] = [] := by
        have hne : (ins.scriptId == s.id) = false := by
          simp only [beq_eq_false_iff_ne, ne_eq]
          intro hh
          exact hid hh.symm
        simp [List.filter, newIterationRecord, hne]
      rw [hnomatch, List.append_nil]
      exact hk2

theorem storeInv_createIteration (st : MemStorage) (ins : InsertIteration) (k : ℕ)
    (h : StoreInv st)
    (hsid : ins.scriptId < st.scriptCurrentId)
    (hraw : rawNumbersOf st ins.scriptId = ascSeq k)
    (hnum : ins.iterationNumber = (k : ℤ) + 1)
    (hk : (k : ℤ) + 1 ≤ 4) :
    StoreInv (createIteration st ins).2 := by
  have hInv1 := storeInv_insertIterationState st ins k h hsid hraw hnum hk
  show StoreInv (createIteration st ins).2
  simp only [createIteration]
  split
  · split
    · exact storeInv_updateScript _ _ _ hInv1
    · exact hInv1
  · exact hInv1

/-! ### Frame lemmas for the store operations -/
theorem updateScript_frame (st : MemStorage) (id : ℕ) (u : ScriptUpdate) :
    (updateScript st id u).2.iterations = st.iterations ∧
      (updateScript st id u).2.scriptCurrentId = st.scriptCurrentId ∧
      (updateScript st id u).2.iterationCurrentId = st.iterationCurrentId := by
  unfold updateScript
  cases getScript st id <;> exact ⟨rfl, rfl, rfl⟩

theorem updateIteration_frame (st : MemStorage) (id : ℕ) (u : IterationUpdate) :
    (updateIteration st id u).2.scripts = st.scripts ∧
      (updateIteration st id u).2.scriptCurrentId = st.scriptCurrentId ∧
      (updateIteration st id u).2.iterationCurrentId = st.iterationCurrentId := by
  unfold updateIteration
  cases getIteration st id <;> exact ⟨rfl, rfl, rfl⟩

theorem getScript_insertIterationState (st : MemStorage) (ins : InsertIteration)
    (x : ℕ) : getScript (insertIterationState st ins) x = getScript st x := rfl

theorem createIteration_iterations (st : MemStorage) (ins : InsertIteration) :
    (createIteration st ins).2.iterations =
      st.iterations ++ [newIterationRecord st ins] := by
  simp only [createIteration]
  split
  · split
    · rw [(updateScript_frame _ _ _).1]
      rfl
    · rfl
  · rfl

theorem getScript_updateScript_other (st : MemStorage) (id oid : ℕ)
    (u : ScriptUpdate) (h : oid ≠ id) :
    getScript (updateScript st id u).2 oid = getScript st oid := by
  unfold updateScript
  cases hg : getScript st id with
  | none => rfl
  | some s =>
    dsimp only
    unfold getScript
    rw [find?_map_update (fun s : Script => s.id) (applyScriptUpdate u) (fun a => rfl)]
    cases hf : st.scripts.find? (fun s => s.id == oid) with
    | none => rfl
    | some a =>
      have ha : a.id = oid := by simpa using List.find?_some hf
      simp only [Option.map]
      rw [if_neg]
      simp only [ha, beq_iff_eq]
      exact h

theorem getScript_updateScript_self (st : MemStorage) (id : ℕ) (u : ScriptUpdate)
    (sc : Script) (h : getScript st id = some sc) :
    getScript (updateScript st id u).2 id = some (applyScriptUpdate u sc) := by
  unfold updateScript
  rw [h]
  dsimp only
  unfold getScript
  rw [find?_map_update (fun s : Script => s.id) (applyScriptUpdate u) (fun a => rfl)]
  unfold getScript at h
  rw [h]
  have ha : sc.id = id := by simpa using List.find?_some h
  simp only [Option.map]
  rw [if_pos]
  simp [ha]

theorem getIteration_updateIteration_other (st : MemStorage) (id oid : ℕ)
    (u : IterationUpdate) (h : oid ≠ id) :
    getIteration (updateIteration st id u).2 oid = getIteration st oid := by
  unfold updateIteration
  cases hg : getIteration st id with
  | none => rfl
  | some it =>
    dsimp only
    unfold getIteration
    rw [find?_map_update (fun it : Iteration => it.id) (applyIterationUpdate u) (fun a => rfl)]
    cases hf : st.iterations.find? (fun it => it.id == oid) with
    | none => rfl
    | some a =>
      have ha : a.id = oid := by simpa using List.find?_some hf
      simp only [Option.map]
      rw [if_neg]
      simp only [ha, beq_iff_eq]
      exact h

theorem getIteration_updateIteration_self (st : MemStorage) (id : ℕ)
    (u : IterationUpdate) (it : Iteration) (h : getIteration st id = some it) :
    getIteration (updateIteration st id u).2 id = some (applyIterationUpdate u it) := by
  unfold updateIteration
  rw [h]
  dsimp only
  unfold getIteration
  rw [find?_map_update (fun it : Iteration => it.id) (applyIterationUpdate u) (fun a => rfl)]
  unfold getIteration at h
  rw [h]
  have ha : it.id = id := by simpa using List.find?_some h
  simp only [Option.map]
  rw [if_pos]
  simp [ha]

/-! ### Invariant preservation across the API operations -/
theorem rawNumbersOf_congr (st st' : MemStorage) (h : st'.iterations = st.iterations)
    (sid : ℕ) : rawNumbersOf st' sid = rawNumbersOf st sid := by
  unfold rawNumbersOf
  rw [h]

theorem rawNumbersOf_of_noPrior (st : MemStorage) (sid : ℕ)
    (h : noPriorIterations st sid = true) : rawNumbersOf st sid = ascSeq 0 := by
  unfold noPriorIterations at h
  rw [List.isEmpty_iff] at h
  unfold rawNumbersOf
  rw [h]
  rfl

theorem storeInv_postScripts (st : MemStorage) (ins : InsertScript)
    (h : StoreInv st) : StoreInv (postScripts st ins).state :=
  storeInv_createScript st ins h

theorem storeInv_patchIteration (st : MemStorage) (id : ℕ) (content : String)
    (h : StoreInv st) : StoreInv (patchIteration st id content).state := by
  unfold patchIteration
  split
  · exact h
  · split
    · exact h
    · exact storeInv_updateIteration _ _ _ h

theorem storeInv_postGenerate (st : MemStorage) (sid : ℕ) (gen : Except Unit String)
    (now : String) (h : StoreInv st) (hfree : noPriorIterations st sid = true) :
    StoreInv (postGenerate st sid gen now).state := by
  unfold postGenerate
  cases hg : getScript st sid with
  | none => exact h
  | some sc =>
    dsimp only
    have hmem := List.mem_of_find?_eq_some hg
    have hid : sc.id = sid := by simpa using List.find?_some hg
    have h1 : StoreInv (updateScript st sid
        { status := some "in_progress", currentIteration := some 0 }).2 :=
      storeInv_updateScript st sid _ h
    cases gen with
    | error e => exact h1
    | ok content =>
      refine storeInv_updateScript _ _ _ ?_
      refine storeInv_createIteration _ _ 0 h1 ?_ ?_ (by norm_num) (by norm_num)
      · show sid < (updateScript st sid _).2.scriptCurrentId
        rw [(updateScript_frame _ _ _).2.1]
        rw [← hid]
        exact h.script_id_lt sc hmem
      · show rawNumbersOf _ sid = ascSeq 0
        rw [rawNumbersOf_congr st _ (updateScript_frame _ _ _).1]
        exact rawNumbersOf_of_noPrior st sid hfree

theorem storeInv_postImprove (st : MemStorage) (sid : ℕ)
    (gen : Except Unit (String × String)) (now : String) (h : StoreInv st) :
    StoreInv (postImprove st sid gen now).state := by
  unfold postImprove
  cases hg : getScript st sid with
  | none => exact h
  | some sc =>
    dsimp only
    have hmem := List.mem_of_find?_eq_some hg
    have hid : sc.id = sid := by simpa using List.find?_some hg
    have htot : sc.totalIterations = 4 := h.total_eq sc hmem
    obtain ⟨k, hk1, hk2⟩ := h.nums_asc sc hmem
    have hraw : rawNumbersOf st sid = ascSeq k := by
      rw [← hid]
      exact hk2
    have hfilter : getIterationsByScriptId st sid =
        st.iterations.filter (fun it => it.scriptId == sid) := by
      unfold getIterationsByScriptId
      apply sortByNumberAsc_eq_self
      apply List.pairwise_map.mp
      rw [show ((st.iterations.filter (fun it => it.scriptId == sid)).map
        (·.iterationNumber)) = ascSeq k from hraw]
      exact ascSeq_pairwise k
    have hmap : (getIterationsByScriptId st sid).map (·.iterationNumber) = ascSeq k := by
      rw [hfilter]
      exact hraw
    have hlen : (getIterationsByScriptId st sid).length = k := by
      have hx := congrArg List.length hmap
      rw [List.length_map, ascSeq_length] at hx
      exact hx
    cases k with
    | zero =>
      have hnil : getIterationsByScriptId st sid = [] :=
        List.eq_nil_of_length_eq_zero hlen
      rw [hnil, htot]
      norm_num [sortByNumberDesc]
      exact h
    | succ m =>
      rw [hmap, hlen, jsMaxList_ascSeq m, htot]
      rw [if_pos (Nat.succ_pos m)]
      by_cases hcap : ((m : ℤ) + 1) + 1 > 4
      · rw [if_pos hcap]
        exact h
      · rw [if_neg hcap]
        cases hd : sortByNumberDesc (getIterationsByScriptId st sid) with
        | nil =>
          exfalso
          have hx := length_sortByNumberDesc (getIterationsByScriptId st sid)
          rw [hd, hlen] at hx
          simp at hx
        | cons a rest =>
          cases gen with
          | error e => exact h
          | ok p =>
            obtain ⟨content, improvements⟩ := p
            dsimp only
            refine storeInv_updateScript _ _ _ ?_
            refine storeInv_createIteration _ _ (m + 1) h ?_ ?_ ?_ ?_
            · show sid < st.scriptCurrentId
              rw [← hid]
              exact h.script_id_lt sc hmem
            · exact hraw
            · show ((m : ℤ) + 1) + 1 = ((m + 1 : ℕ) : ℤ) + 1
              push_cast
              ring
            · push_cast
              push_cast at hcap
              omega

theorem storeInv_applyOp (st : MemStorage) (op : Op) (h : StoreInv st)
    (hgood : opPrecondition st op = true) :
    StoreInv (applyOp st op) := by
  cases op with
  | createScript ins => exact storeInv_postScripts st ins h
  | generate sid gen now => exact storeInv_postGenerate st sid gen now h hgood
  | improve sid gen now => exact storeInv_postImprove st sid gen now h
  | editIteration id content => exact storeInv_patchIteration st id content h

theorem storeInv_runOps (st : MemStorage) (ops : List Op) (h : StoreInv st)
    (hgood : goodOps st ops = true) : StoreInv (runOps st ops) := by
  induction ops generalizing st with
  | nil => exact h
  | cons op rest ih =>
    rw [goodOps] at hgood
    rw [Bool.and_eq_true] at hgood
    exact ih (applyOp st op) (storeInv_applyOp st op h hgood.1) hgood.2

/-- When a script's raw iteration numbers are the gapless `[1, …, k]`, the
sorted read is the filter itself, with the same numbers and length `k`. -/
theorem getIterations_of_raw (st : MemStorage) (sid : ℕ) (k : ℕ)
    (hraw : rawNumbersOf st sid = ascSeq k) :
    getIterationsByScriptId st sid =
        st.iterations.filter (fun it => it.scriptId == sid) ∧
      (getIterationsByScriptId st sid).map (·.iterationNumber) = ascSeq k ∧
      (getIterationsByScriptId st sid).length = k := by
  have hfilter : getIterationsByScriptId st sid =
      st.iterations.filter (fun it => it.scriptId == sid) := by
    unfold getIterationsByScriptId
    apply sortByNumberAsc_eq_self
    apply List.pairwise_map.mp
    rw [show ((st.iterations.filter (fun it => it.scriptId == sid)).map
      (·.iterationNumber)) = ascSeq k from hraw]
    exact ascSeq_pairwise k
  have hmap : (getIterationsByScriptId st sid).map (·.iterationNumber) = ascSeq k := by
    rw [hfilter]
    exact hraw
  have hlen : (getIterationsByScriptId st sid).length = k := by
    have hx := congrArg List.length hmap
    rw [List.length_map, ascSeq_length] at hx
    exact hx
  exact ⟨hfilter, hmap, hlen⟩

/-- The `/improve` endpoint rejects with 400 and leaves the store unchanged
whenever the target script's iteration numbers already fill `[1, …,
totalIterations]`. -/
theorem postImprove_rejects_at_cap (st : MemStorage) (sid : ℕ) (sc : Script)
    (gen : Except Unit (String × String)) (now : String) (k : ℕ)
    (h : getScript st sid = some sc)
    (hraw : rawNumbersOf st sid = ascSeq k)
    (htot : (k : ℤ) = sc.totalIterations) :
    postImprove st sid gen now = ⟨400, st⟩ := by
  unfold postImprove
  rw [h]
  dsimp only
  obtain ⟨hfilter, hmap, hlen⟩ := getIterations_of_raw st sid k hraw
  cases k with
  | zero =>
    have hnil : getIterationsByScriptId st sid = [] :=
      List.eq_nil_of_length_eq_zero hlen
    rw [hnil, ← htot]
    norm_num
  | succ m =>
    rw [hmap, hlen, jsMaxList_ascSeq m, ← htot]
    rw [if_pos (Nat.succ_pos m)]
    rw [if_pos (by push_cast; omega)]

end Sync

namespace Async

/-! ### Lemmas -/
theorem length_insertIterAsc (x : ScriptIteration) (l : List ScriptIteration) :
    (insertIterAsc x l).length = l.length + 1 := by
  induction l with
  | nil => rfl
  | cons y ys ih =>
    rw [insertIterAsc]
    split
    · rfl
    · simp [ih]

theorem length_sortIterAsc (l : List ScriptIteration) :
    (sortIterAsc l).length = l.length := by
  induction l with
  | nil => rfl
  | cons x xs ih =>
    rw [sortIterAsc, length_insertIterAsc, ih]
    rfl

theorem iterMerge_id (u : IterationUpdate) (id : ℕ) (t : ScriptIteration) :
    (if t.id == id then applyIterationUpdate u t else t).id = t.id := by
  split <;> rfl

theorem updateScriptIteration_frame (st : MemStorage) (id : ℕ)
    (u : IterationUpdate) :
    (updateScriptIteration st id u).2.scripts = st.scripts ∧
      (updateScriptIteration st id u).2.scriptId = st.scriptId ∧
      (updateScriptIteration st id u).2.iterationId = st.iterationId := by
  unfold updateScriptIteration
  cases getScriptIteration st id <;> exact ⟨rfl, rfl, rfl⟩

theorem getScriptIteration_update_other (st : MemStorage) (id oid : ℕ)
    (u : IterationUpdate) (h : oid ≠ id) :
    getScriptIteration (updateScriptIteration st id u).2 oid =
      getScriptIteration st oid := by
  unfold updateScriptIteration
  cases hg : getScriptIteration st id with
  | none => rfl
  | some it =>
    dsimp only
    unfold getScriptIteration
    rw [find?_map_update (fun it : ScriptIteration => it.id)
      (applyIterationUpdate u) (fun a => rfl)]
    cases hf : st.scriptIterations.find? (fun it => it.id == oid) with
    | none => rfl
    | some a =>
      have ha : a.id = oid := by simpa using List.find?_some hf
      simp only [Option.map]
      rw [if_neg]
      simp only [ha, beq_iff_eq]
      exact h

theorem getScriptIteration_update_self (st : MemStorage) (id : ℕ)
    (u : IterationUpdate) (it : ScriptIteration)
    (h : getScriptIteration st id = some it) :
    getScriptIteration (updateScriptIteration st id u).2 id =
      some (applyIterationUpdate u it) := by
  unfold updateScriptIteration
  rw [h]
  dsimp only
  unfold getScriptIteration
  rw [find?_map_update (fun it : ScriptIteration => it.id)
    (applyIterationUpdate u) (fun a => rfl)]
  unfold getScriptIteration at h
  rw [h]
  have ha : it.id = id := by simpa using List.find?_some h
  simp only [Option.map]
  rw [if_pos]
  simp [ha]

/-- The iterations endpoint rejects with 400, changing nothing, whenever the
script's existing iteration count already equals its requested total. -/
theorem postIterations_rejects_at_cap (st : MemStorage) (sid : ℕ) (sc : Script)
    (now : String) (h : getScript st sid = some sc)
    (hcount : ((getScriptIterations st sid).length : ℤ) = sc.iterations) :
    postIterations st sid now = ⟨400, st⟩ := by
  unfold postIterations
  rw [h]
  dsimp only
  rw [if_pos]
  rw [← hcount]
  omega

/-- `startScriptGeneration` appends an iteration numbered 1 unconditionally:
there is no idempotency check in this variant either (it is only ever invoked
by the script-creation endpoint). -/
theorem startScriptGeneration_appends (st : MemStorage) (script : Script)
    (now : String) :
    (startScriptGeneration st script now).2.scriptIterations =
      st.scriptIterations ++
        [{ id := st.iterationId, scriptId := script.id, iterationNumber := 1,
           content := "Generating script...", status := "in_progress",
           metrics := none, createdAt := now }] := rfl

end Async

namespace Export

/-! ### Lemmas about the matchers -/
theorem takeDigits_append (ds : List Char) (hds : ∀ c ∈ ds, c.isDigit)
    (y : Char) (rest : List Char) (hy : y.isDigit = false) :
    takeDigits (ds ++ y :: rest) = (ds, y :: rest) := by
  induction ds with
  | nil =>
    simp only [List.nil_append, takeDigits, hy]
    rfl
  | cons d dt ih =>
    have hd : d.isDigit := hds d (List.mem_cons_self d dt)
    have ih2 := ih (fun c hc => hds c (List.mem_cons_of_mem d hc))
    show takeDigits (d :: (dt ++ y :: rest)) = _
    simp [takeDigits, hd, ih2]

theorem matchTs_none (c : Char) (r : List Char) (h : c ≠ '(') :
    matchTimestampAt (c :: r) = none := by
  rw [matchTimestampAt.eq_def]
  split
  · rename_i heq
    exact absurd (by injection heq with h1 _; exact h1.symm) (Ne.symm h)
  · rfl

theorem matchTs_token_short (d1 d2 : List Char) (h1 : d1 ≠ []) (h2 : d2 ≠ [])
    (hd1 : ∀ c ∈ d1, c.isDigit) (hd2 : ∀ c ∈ d2, c.isDigit) (rest : List Char) :
    matchTimestampAt (('(' :: (d1 ++ ':' :: d2 ++ [')'])) ++ rest) =
      some ('(' :: (d1 ++ ':' :: d2 ++ [')']), rest) := by
  have e1 : takeDigits (d1 ++ ':' :: (d2 ++ ')' :: rest)) =
      (d1, ':' :: (d2 ++ ')' :: rest)) :=
    takeDigits_append d1 hd1 ':' _ (by decide)
  have e2 : takeDigits (d2 ++ ')' :: rest) = (d2, ')' :: rest) :=
    takeDigits_append d2 hd2 ')' rest (by decide)
  obtain ⟨c1, t1, rfl⟩ := List.exists_cons_of_ne_nil h1
  obtain ⟨c2, t2, rfl⟩ := List.exists_cons_of_ne_nil h2
  rw [matchTimestampAt.eq_def]
  simp only [List.cons_append, List.append_assoc, List.nil_append,
    List.append_eq] at e1 e2 ⊢
  rw [e1]
  simp only [e2]
  simp

theorem matchTs_token_long (d1 d2 d3 d4 : List Char) (h1 : d1 ≠ [])
    (h2 : d2 ≠ []) (h3 : d3 ≠ []) (h4 : d4 ≠ [])
    (hd1 : ∀ c ∈ d1, c.isDigit) (hd2 : ∀ c ∈ d2, c.isDigit)
    (hd3 : ∀ c ∈ d3, c.isDigit) (hd4 : ∀ c ∈ d4, c.isDigit) (rest : List Char) :
    matchTimestampAt
        (('(' :: (d1 ++ ':' :: d2 ++ '-' :: d3 ++ ':' :: d4 ++ [')'])) ++ rest) =
      some ('(' :: (d1 ++ ':' :: d2 ++ '-' :: d3 ++ ':' :: d4 ++ [')']), rest) := by
  have e1 : takeDigits
      (d1 ++ ':' :: (d2 ++ '-' :: (d3 ++ ':' :: (d4 ++ ')' :: rest)))) =
      (d1, ':' :: (d2 ++ '-' :: (d3 ++ ':' :: (d4 ++ ')' :: rest)))) :=
    takeDigits_append d1 hd1 ':' _ (by decide)
  have e2 : takeDigits (d2 ++ '-' :: (d3 ++ ':' :: (d4 ++ ')' :: rest))) =
      (d2, '-' :: (d3 ++ ':' :: (d4 ++ ')' :: rest))) :=
    takeDigits_append d2 hd2 '-' _ (by decide)
  have e3 : takeDigits (d3 ++ ':' :: (d4 ++ ')' :: rest)) =
      (d3, ':' :: (d4 ++ ')' :: rest)) :=
    takeDigits_append d3 hd3 ':' _ (by decide)
  have e4 : takeDigits (d4 ++ ')' :: rest) = (d4, ')' :: rest) :=
    takeDigits_append d4 hd4 ')' rest (by decide)
  obtain ⟨c1, t1, rfl⟩ := List.exists_cons_of_ne_nil h1
  obtain ⟨c2, t2, rfl⟩ := List.exists_cons_of_ne_nil h2
  obtain ⟨c3, t3, rfl⟩ := List.exists_cons_of_ne_nil h3
  obtain ⟨c4, t4, rfl⟩ := List.exists_cons_of_ne_nil h4
  rw [matchTimestampAt.eq_def]
  simp only [List.cons_append, List.append_assoc, List.nil_append,
    List.append_eq] at e1 e2 e3 e4 ⊢
  rw [e1]
  simp only [e2, e3, e4]
  simp

theorem matchTs_token (ts : List Char) (h : IsTs ts) (rest : List Char) :
    matchTimestampAt (ts ++ rest) = some (ts, rest) := by
  cases h with
  | short d1 d2 h1 h2 hd1 hd2 =>
    exact matchTs_token_short d1 d2 h1 h2 hd1 hd2 rest
  | long d1 d2 d3 d4 h1 h2 h3 h4 hd1 hd2 hd3 hd4 =>
    exact matchTs_token_long d1 d2 d3 d4 h1 h2 h3 h4 hd1 hd2 hd3 hd4 rest

/-! ### Lemmas about the generic scanner -/
theorem scanGo_nil (m : List Char → Option (List Char × List Char))
    (emit : List Char → List Char) (fuel : ℕ) :
    scanReplaceGo m emit fuel [] = [] := by
  cases fuel <;> rfl

theorem scanGo_skip (m : List Char → Option (List Char × List Char))
    (emit : List Char → List Char) (l1 : List Char)
    (hgate : ∀ c ∈ l1, ∀ r, m (c :: r) = none) :
    ∀ (fuel : ℕ) (tail : List Char),
      scanReplaceGo m emit (l1.length + fuel) (l1 ++ tail) =
        l1 ++ scanReplaceGo m emit fuel tail := by
  induction l1 with
  | nil =>
    intro fuel tail
    simp
  | cons c cs ih =>
    intro fuel tail
    have harith : (c :: cs).length + fuel = (cs.length + fuel) + 1 := by
      simp only [List.length_cons]
      omega
    rw [harith]
    show scanReplaceGo m emit ((cs.length + fuel) + 1) (c :: (cs ++ tail)) = _
    simp only [scanReplaceGo, hgate c (List.mem_cons_self c cs)]
    rw [ih (fun x hx r => hgate x (List.mem_cons_of_mem c hx) r) fuel tail]
    rfl

theorem scanGo_token (m : List Char → Option (List Char × List Char))
    (emit : List Char → List Char) (c : Char) (body rest p : List Char)
    (hm : m (c :: (body ++ rest)) = some (p, rest)) (fuel : ℕ) :
    scanReplaceGo m emit (fuel + 1) (c :: (body ++ rest)) =
      emit p ++ scanReplaceGo m emit fuel rest := by
  simp only [scanReplaceGo, hm]

theorem scanReplace_id (m : List Char → Option (List Char × List Char))
    (emit : List Char → List Char) (l : List Char)
    (hgate : ∀ c ∈ l, ∀ r, m (c :: r) = none) :
    scanReplace m emit l = l := by
  have h := scanGo_skip m emit l hgate 0 []
  simpa [scanGo_nil, scanReplace] using h

theorem assembleSegs_nil (s0 : List Char) : assembleSegs s0 [] = s0 := by
  simp [assembleSegs]

theorem assembleWith_nil (f : List Char → List Char) (s0 : List Char) :
    assembleWith f s0 [] = s0 := by
  simp [assembleWith]

theorem assembleSegs_cons (s0 ts s1 : List Char)
    (rest : List (List Char × List Char)) :
    assembleSegs s0 ((ts, s1) :: rest) = s0 ++ (ts ++ assembleSegs s1 rest) := by
  simp [assembleSegs, List.append_assoc]

theorem assembleWith_cons (f : List Char → List Char) (s0 ts s1 : List Char)
    (rest : List (List Char × List Char)) :
    assembleWith f s0 ((ts, s1) :: rest) =
      s0 ++ (f ts ++ assembleWith f s1 rest) := by
  simp [assembleWith, List.append_assoc]

theorem concatPlain_eq (s0 : List Char) (segs : List (List Char × List Char)) :
    concatPlain s0 segs = assembleWith (fun _ => []) s0 segs := rfl

theorem ists_head (ts : List Char) (h : IsTs ts) : ∃ body, ts = '(' :: body := by
  cases h with
  | short d1 d2 h1 h2 hd1 hd2 => exact ⟨_, rfl⟩
  | long d1 d2 d3 d4 h1 h2 h3 h4 hd1 hd2 hd3 hd4 => exact ⟨_, rfl⟩

theorem scanGo_assemble (emit : List Char → List Char) :
    ∀ (segs : List (List Char × List Char)) (s0 : List Char),
      '(' ∉ s0 → (∀ p ∈ segs, IsTs p.1 ∧ '(' ∉ p.2) → ∀ extra : ℕ,
      scanReplaceGo matchTimestampAt emit
          ((assembleSegs s0 segs).length + extra) (assembleSegs s0 segs) =
        assembleWith emit s0 segs := by
  intro segs
  induction segs with
  | nil =>
    intro s0 h0 _ extra
    rw [assembleSegs_nil, assembleWith_nil]
    have hgate : ∀ c ∈ s0, ∀ r, matchTimestampAt (c :: r) = none :=
      fun c hc r => matchTs_none c r (fun he => h0 (he ▸ hc))
    have h := scanGo_skip _ emit s0 hgate extra []
    simpa [scanGo_nil] using h
  | cons p rest ih =>
    intro s0 h0 hsegs extra
    obtain ⟨ts, s1⟩ := p
    have hts : IsTs ts := (hsegs (ts, s1) (List.mem_cons_self _ _)).1
    have hs1 : '(' ∉ s1 := (hsegs (ts, s1) (List.mem_cons_self _ _)).2
    have hrest : ∀ q ∈ rest, IsTs q.1 ∧ '(' ∉ q.2 :=
      fun q hq => hsegs q (List.mem_cons_of_mem _ hq)
    obtain ⟨body, rfl⟩ := ists_head ts hts
    rw [assembleSegs_cons, assembleWith_cons]
    have hgate : ∀ c ∈ s0, ∀ r, matchTimestampAt (c :: r) = none :=
      fun c hc r => matchTs_none c r (fun he => h0 (he ▸ hc))
    have ha1 : (s0 ++ (('(' :: body) ++ assembleSegs s1 rest)).length + extra
        = s0.length + ((('(' :: body) ++ assembleSegs s1 rest).length + extra) := by
      simp only [List.length_append]
      omega
    rw [ha1, scanGo_skip _ emit s0 hgate _ _]
    have ha2 : (('(' :: body) ++ assembleSegs s1 rest).length + extra
        = ((body ++ assembleSegs s1 rest).length + extra) + 1 := by
      simp only [List.length_append, List.length_cons]
      omega
    rw [ha2]
    have hm : matchTimestampAt ('(' :: (body ++ assembleSegs s1 rest)) =
        some ('(' :: body, assembleSegs s1 rest) := by
      have h := matchTs_token _ hts (assembleSegs s1 rest)
      simpa [List.cons_append] using h
    rw [show (('(' :: body) ++ assembleSegs s1 rest : List Char) =
      '(' :: (body ++ assembleSegs s1 rest) from rfl]
    rw [scanGo_token _ emit '(' body _ _ hm]
    have ha3 : (body ++ assembleSegs s1 rest).length + extra
        = (assembleSegs s1 rest).length + (body.length + extra) := by
      simp only [List.length_append]
      omega
    rw [ha3, ih s1 hs1 hrest (body.length + extra)]

theorem scanReplace_assemble (emit : List Char → List Char)
    (s0 : List Char) (segs : List (List Char × List Char))
    (h0 : '(' ∉ s0) (hsegs : ∀ p ∈ segs, IsTs p.1 ∧ '(' ∉ p.2) :
    scanReplace matchTimestampAt emit (assembleSegs s0 segs) =
      assembleWith emit s0 segs := by
  have h := scanGo_assemble emit segs s0 h0 hsegs 0
  simpa [scanReplace] using h

/-! ### Identity of the other passes on hygienic content -/
theorem matchSection_none (c : Char) (r : List Char) (h : c ≠ '#') :
    matchSectionLineAt (c :: r) = none := by
  rw [matchSectionLineAt.eq_def]
  split
  · rename_i heq
    exact absurd (by injection heq with h1 _; exact h1.symm) (Ne.symm h)
  · rfl

theorem removeSectionLinesGo_nil (fuel : ℕ) (flag : Bool) :
    removeSectionLinesGo fuel flag [] = [] := by
  cases fuel <;> rfl

theorem removeSectionLinesGo_id (l : List Char) (h : '#' ∉ l) :
    ∀ (extra : ℕ) (flag : Bool),
      removeSectionLinesGo (l.length + extra) flag l = l := by
  induction l with
  | nil =>
    intro extra flag
    simp [removeSectionLinesGo_nil]
  | cons c cs ih =>
    intro extra flag
    have hc : c ≠ '#' := fun he => h (he ▸ List.mem_cons_self c cs)
    have hcs : '#' ∉ cs := fun hm => h (List.mem_cons_of_mem c hm)
    have harith : (c :: cs).length + extra = (cs.length + extra) + 1 := by
      simp only [List.length_cons]
      omega
    rw [harith]
    cases flag with
    | true =>
      simp [removeSectionLinesGo, matchSection_none c cs hc, ih hcs extra]
    | false =>
      simp [removeSectionLinesGo, ih hcs extra]

theorem removeSectionLines_id (l : List Char) (h : '#' ∉ l) :
    removeSectionLines l = l := by
  have hx := removeSectionLinesGo_id l h 0 true
  simpa [removeSectionLines] using hx

theorem matchBold_none (c : Char) (r : List Char) (h : c ≠ '*') :
    matchBoldAt (c :: r) = none := by
  rw [matchBoldAt.eq_def]
  split
  · rename_i heq
    exact absurd (by injection heq with h1 _; exact h1.symm) (Ne.symm h)
  · rfl

theorem matchItalic_none (c : Char) (r : List Char) (h : c ≠ '*') :
    matchItalicAt (c :: r) = none := by
  rw [matchItalicAt.eq_def]
  split
  · rename_i heq
    exact absurd (by injection heq with h1 _; exact h1.symm) (Ne.symm h)
  · rfl

theorem matchPause_none (c : Char) (r : List Char) (h : c ≠ '[') :
    matchPauseAt (c :: r) = none := by
  rw [matchPauseAt.eq_def]
  split
  · rename_i heq
    exact absurd (by injection heq with h1 _; exact h1.symm) (Ne.symm h)
  · rfl

theorem matchEmphasis_none (c : Char) (r : List Char) (h : c ≠ '[') :
    matchEmphasisAt (c :: r) = none := by
  rw [matchEmphasisAt.eq_def]
  split
  · rename_i heq
    exact absurd (by injection heq with h1 _; exact h1.symm) (Ne.symm h)
  · rfl

theorem talentFormat_id (l : List Char) (hstar : '*' ∉ l) (hbr : '[' ∉ l) :
    talentFormat l = l := by
  unfold talentFormat
  rw [scanReplace_id matchBoldAt _ l
    (fun c hc r => matchBold_none c r (fun he => hstar (he ▸ hc)))]
  rw [scanReplace_id matchItalicAt _ l
    (fun c hc r => matchItalic_none c r (fun he => hstar (he ▸ hc)))]
  rw [scanReplace_id matchPauseAt _ l
    (fun c hc r => matchPause_none c r (fun he => hbr (he ▸ hc)))]
  rw [scanReplace_id matchEmphasisAt _ l
    (fun c hc r => matchEmphasis_none c r (fun he => hbr (he ▸ hc)))]

/-! ### Character membership of assembled content -/
theorem mem_assembleWith (f : List Char → List Char) {c : Char} :
    ∀ (segs : List (List Char × List Char)) (s0 : List Char),
      c ∈ assembleWith f s0 segs →
      c ∈ s0 ∨ ∃ p ∈ segs, c ∈ f p.1 ∨ c ∈ p.2 := by
  intro segs
  induction segs with
  | nil =>
    intro s0 h
    rw [assembleWith_nil] at h
    exact Or.inl h
  | cons p rest ih =>
    intro s0 h
    obtain ⟨ts, s1⟩ := p
    rw [assembleWith_cons] at h
    rcases List.mem_append.mp h with h | h
    · exact Or.inl h
    rcases List.mem_append.mp h with h | h
    · exact Or.inr ⟨(ts, s1), List.mem_cons_self _ _, Or.inl h⟩
    rcases ih s1 h with h | ⟨q, hq, hcq⟩
    · exact Or.inr ⟨(ts, s1), List.mem_cons_self _ _, Or.inr h⟩
    · exact Or.inr ⟨q, List.mem_cons_of_mem _ hq, hcq⟩

theorem assembleSegs_eq_with (s0 : List Char)
    (segs : List (List Char × List Char)) :
    assembleSegs s0 segs = assembleWith (fun ts => ts) s0 segs := rfl

theorem ists_chars (ts : List Char) (h : IsTs ts) :
    ∀ c ∈ ts, c.isDigit ∨ c = '(' ∨ c = ')' ∨ c = ':' ∨ c = '-' := by
  cases h with
  | short d1 d2 h1 h2 hd1 hd2 =>
    intro c hc
    simp only [List.mem_cons, List.mem_append, List.mem_singleton] at hc
    rcases hc with rfl | (hc | rfl | hc) | rfl | hc
    · exact Or.inr (Or.inl rfl)
    · exact Or.inl (hd1 c hc)
    · exact Or.inr (Or.inr (Or.inr (Or.inl rfl)))
    · exact Or.inl (hd2 c hc)
    · exact Or.inr (Or.inr (Or.inl rfl))
    · exact absurd hc (List.not_mem_nil c)
  | long d1 d2 d3 d4 h1 h2 h3 h4 hd1 hd2 hd3 hd4 =>
    intro c hc
    simp only [List.mem_cons, List.mem_append, List.mem_singleton] at hc
    rcases hc with rfl | (((hc | rfl | hc) | rfl | hc) | rfl | hc) | rfl | hc
    · exact Or.inr (Or.inl rfl)
    · exact Or.inl (hd1 c hc)
    · exact Or.inr (Or.inr (Or.inr (Or.inl rfl)))
    · exact Or.inl (hd2 c hc)
    · exact Or.inr (Or.inr (Or.inr (Or.inr rfl)))
    · exact Or.inl (hd3 c hc)
    · exact Or.inr (Or.inr (Or.inr (Or.inl rfl)))
    · exact Or.inl (hd4 c hc)
    · exact Or.inr (Or.inr (Or.inl rfl))
    · exact absurd hc (List.not_mem_nil c)

theorem ists_no_hash (ts : List Char) (h : IsTs ts) : '#' ∉ ts := by
  intro hm
  have hx := ists_chars ts h '#' hm
  revert hx
  decide

theorem ists_no_star (ts : List Char) (h : IsTs ts) : '*' ∉ ts := by
  intro hm
  have hx := ists_chars ts h '*' hm
  revert hx
  decide

theorem ists_no_bracket (ts : List Char) (h : IsTs ts) : '[' ∉ ts := by
  intro hm
  have hx := ists_chars ts h '[' hm
  revert hx
  decide

theorem containsSub_head_absent (d : Char) (ds : List Char) :
    ∀ (l : List Char), d ∉ l → containsSubAux (d :: ds) l = false := by
  intro l
  induction l with
  | nil => intro _; rfl
  | cons c cs ih =>
    intro h
    have hd : d ≠ c := fun he => h (he ▸ List.mem_cons_self c cs)
    have hcs : d ∉ cs := fun hm => h (List.mem_cons_of_mem c hm)
    simp only [containsSubAux, isPrefixList, Bool.or_eq_false_iff,
      Bool.and_eq_false_iff]
    constructor
    · left
      simpa using hd
    · exact ih hcs

theorem not_mem_assembleWith (f : List Char → List Char) (x : Char)
    (s0 : List Char) (segs : List (List Char × List Char))
    (h0 : x ∉ s0) (hseg2 : ∀ p ∈ segs, x ∉ p.2)
    (hf : ∀ p ∈ segs, x ∉ f p.1) :
    x ∉ assembleWith f s0 segs := by
  intro hm
  rcases mem_assembleWith f segs s0 hm with h | ⟨p, hp, hcp | hcp⟩
  · exact h0 h
  · exact hf p hp hcp
  · exact hseg2 p hp hcp

theorem mem_wrapTimestamp {c : Char} (m : List Char) (h : c ∈ wrapTimestamp m) :
    c ∈ "<span class=\"timestamp\">".data ∨ c ∈ m ∨ c ∈ "</span>".data := by
  unfold wrapTimestamp at h
  rcases List.mem_append.mp h with h | h
  · rcases List.mem_append.mp h with h | h
    · exact Or.inl h
    · exact Or.inr (Or.inl h)
  · exact Or.inr (Or.inr h)

theorem no_hash_assemble (s0 : List Char) (segs : List (List Char × List Char))
    (h0 : PlainSeg s0) (hsegs : ∀ p ∈ segs, IsTs p.1 ∧ PlainSeg p.2) :
    '#' ∉ assembleSegs s0 segs := by
  rw [assembleSegs_eq_with]
  exact not_mem_assembleWith _ _ _ _ h0.2.1
    (fun p hp => (hsegs p hp).2.2.1)
    (fun p hp => ists_no_hash p.1 (hsegs p hp).1)

theorem no_star_plain (s0 : List Char) (segs : List (List Char × List Char))
    (h0 : PlainSeg s0) (hsegs : ∀ p ∈ segs, IsTs p.1 ∧ PlainSeg p.2) :
    '*' ∉ concatPlain s0 segs := by
  rw [concatPlain_eq]
  exact not_mem_assembleWith _ _ _ _ h0.2.2.1
    (fun p hp => (hsegs p hp).2.2.2.1)
    (fun p hp h => absurd h (List.not_mem_nil _))

theorem no_bracket_plain (s0 : List Char) (segs : List (List Char × List Char))
    (h0 : PlainSeg s0) (hsegs : ∀ p ∈ segs, IsTs p.1 ∧ PlainSeg p.2) :
    '[' ∉ concatPlain s0 segs := by
  rw [concatPlain_eq]
  exact not_mem_assembleWith _ _ _ _ h0.2.2.2
    (fun p hp => (hsegs p hp).2.2.2.2)
    (fun p hp h => absurd h (List.not_mem_nil _))

theorem no_star_wrapped (s0 : List Char) (segs : List (List Char × List Char))
    (h0 : PlainSeg s0) (hsegs : ∀ p ∈ segs, IsTs p.1 ∧ PlainSeg p.2) :
    '*' ∉ assembleWith wrapTimestamp s0 segs := by
  refine not_mem_assembleWith _ _ _ _ h0.2.2.1
    (fun p hp => (hsegs p hp).2.2.2.1) (fun p hp h => ?_)
  rcases mem_wrapTimestamp p.1 h with h | h | h
  · revert h
    decide
  · exact ists_no_star p.1 (hsegs p hp).1 h
  · revert h
    decide

theorem no_bracket_wrapped (s0 : List Char) (segs : List (List Char × List Char))
    (h0 : PlainSeg s0) (hsegs : ∀ p ∈ segs, IsTs p.1 ∧ PlainSeg p.2) :
    '[' ∉ assembleWith wrapTimestamp s0 segs := by
  refine not_mem_assembleWith _ _ _ _ h0.2.2.2
    (fun p hp => (hsegs p hp).2.2.2.2) (fun p hp h => ?_)
  rcases mem_wrapTimestamp p.1 h with h | h | h
  · revert h
    decide
  · exact ists_no_bracket p.1 (hsegs p hp).1 h
  · revert h
    decide

theorem no_paren_hyps (s0 : List Char) (segs : List (List Char × List Char))
    (h0 : PlainSeg s0) (hsegs : ∀ p ∈ segs, IsTs p.1 ∧ PlainSeg p.2) :
    '(' ∉ s0 ∧ ∀ p ∈ segs, IsTs p.1 ∧ '(' ∉ p.2 :=
  ⟨h0.1, fun p hp => ⟨(hsegs p hp).1, (hsegs p hp).2.1⟩⟩

/-! ### The format functions on assembled content -/
theorem scriptToText_assemble (title : String) (settings : ExportSettings)
    (metadata : Option (List (String × String))) (s0 : List Char)
    (segs : List (List Char × List Char)) (h0 : PlainSeg s0)
    (hsegs : ∀ p ∈ segs, IsTs p.1 ∧ PlainSeg p.2) :
    scriptToText (String.mk (assembleSegs s0 segs)) title settings metadata =
      textHead title settings metadata ++
        String.mk (if settings.includeTimestamps then assembleSegs s0 segs
          else concatPlain s0 segs) := by
  obtain ⟨hp0, hpsegs⟩ := no_paren_hyps s0 segs h0 hsegs
  have hhash : '#' ∉ assembleSegs s0 segs := no_hash_assemble s0 segs h0 hsegs
  simp only [scriptToText]
  have hf1 : (if !settings.includeSections then
      removeSectionLines (String.mk (assembleSegs s0 segs)).data
      else (String.mk (assembleSegs s0 segs)).data) = assembleSegs s0 segs := by
    cases settings.includeSections with
    | true => simp
    | false => simpa using removeSectionLines_id _ hhash
  rw [hf1]
  cases hIT : settings.includeTimestamps with
  | true => simp
  | false =>
    simp only [Bool.not_false, if_pos, if_neg]
    rw [scanReplace_assemble _ s0 segs hp0 hpsegs, ← concatPlain_eq]
    simp

theorem scriptToMarkdown_assemble (title : String) (settings : ExportSettings)
    (metadata : Option (List (String × String))) (s0 : List Char)
    (segs : List (List Char × List Char)) (h0 : PlainSeg s0)
    (hsegs : ∀ p ∈ segs, IsTs p.1 ∧ PlainSeg p.2) :
    scriptToMarkdown (String.mk (assembleSegs s0 segs)) title settings metadata =
      mdHead title settings metadata ++
        String.mk (if settings.includeTimestamps then assembleSegs s0 segs
          else concatPlain s0 segs) := by
  obtain ⟨hp0, hpsegs⟩ := no_paren_hyps s0 segs h0 hsegs
  have hhash : '#' ∉ assembleSegs s0 segs := no_hash_assemble s0 segs h0 hsegs
  have hincl : jsIncludes (String.mk (String.mk (assembleSegs s0 segs)).data) "##"
      = false := by
    show containsSubAux "##".data _ = false
    exact containsSub_head_absent '#' ['#'] _ hhash
  simp only [scriptToMarkdown, hincl, Bool.and_false]
  cases hIT : settings.includeTimestamps with
  | true => simp
  | false =>
    simp only [Bool.not_false, if_pos, if_neg]
    rw [show (if (false : Bool) = true then
        mdSectionLines (assembleSegs s0 segs)
        else assembleSegs s0 segs) = assembleSegs s0 segs from rfl]
    rw [scanReplace_assemble _ s0 segs hp0 hpsegs, ← concatPlain_eq]
    simp

theorem scriptToHtml_assemble (title : String) (settings : ExportSettings)
    (metadata : Option (List (String × String))) (s0 : List Char)
    (segs : List (List Char × List Char)) (h0 : PlainSeg s0)
    (hsegs : ∀ p ∈ segs, IsTs p.1 ∧ PlainSeg p.2) :
    scriptToHtml (String.mk (assembleSegs s0 segs)) title settings metadata =
      htmlHead title settings metadata ++
        String.mk (if settings.includeTimestamps then
          assembleWith wrapTimestamp s0 segs else concatPlain s0 segs) ++
        htmlTail := by
  obtain ⟨hp0, hpsegs⟩ := no_paren_hyps s0 segs h0 hsegs
  have hhash : '#' ∉ assembleSegs s0 segs := no_hash_assemble s0 segs h0 hsegs
  simp only [scriptToHtml]
  have hf1 : (if settings.includeSections then
      (String.mk (assembleSegs s0 segs)).data
      else removeSectionLines (String.mk (assembleSegs s0 segs)).data)
      = assembleSegs s0 segs := by
    cases settings.includeSections with
    | true => simp
    | false => simpa using removeSectionLines_id _ hhash
  rw [hf1]
  rw [scanReplace_assemble wrapTimestamp s0 segs hp0 hpsegs,
    scanReplace_assemble (fun _ => ([] : List Char)) s0 segs hp0 hpsegs,
    ← concatPlain_eq]
  have hstar : '*' ∉ (if settings.includeTimestamps = true then
      assembleWith wrapTimestamp s0 segs else concatPlain s0 segs) := by
    cases settings.includeTimestamps with
    | true => simpa using no_star_wrapped s0 segs h0 hsegs
    | false => simpa using no_star_plain s0 segs h0 hsegs
  have hbracket : '[' ∉ (if settings.includeTimestamps = true then
      assembleWith wrapTimestamp s0 segs else concatPlain s0 segs) := by
    cases settings.includeTimestamps with
    | true => simpa using no_bracket_wrapped s0 segs h0 hsegs
    | false => simpa using no_bracket_plain s0 segs h0 hsegs
  have htal : (if settings.formatForTalent = true then
      talentFormat (if settings.includeTimestamps = true then
        assembleWith wrapTimestamp s0 segs else concatPlain s0 segs)
      else (if settings.includeTimestamps = true then
        assembleWith wrapTimestamp s0 segs else concatPlain s0 segs))
      = (if settings.includeTimestamps = true then
        assembleWith wrapTimestamp s0 segs else concatPlain s0 segs) := by
    cases settings.formatForTalent with
    | true => simpa using talentFormat_id _ hstar hbracket
    | false => simp
  rw [htal]

end Export

/-! ## Theorems for claims C6, C7, C9 -/
/-- Claim C6, counterexample.  The claim states that the fallback
estimated-duration metric is the word count at 150 words/minute rounded to the
nearest minute with a minimum of 1 minute.  For the one-word draft "hello" the
code computes `Math.round(1/150*60) = 0` seconds, while the claimed rule gives
60 seconds: the fallback rounds seconds, not minutes, and has no minimum. -/
theorem C6_counterexample :
    (analyzeScript "hello" none).estimatedDuration = 0 ∧
      claimedFallbackDurationSeconds "hello" = 60 ∧
      (analyzeScript "hello" none).estimatedDuration ≠
        claimedFallbackDurationSeconds "hello" := by
  have h : wordCountJs "hello" = 1 := by decide
  have h1 : (analyzeScript "hello" none).estimatedDuration = 0 := by
    show fallbackDuration "hello" = 0
    unfold fallbackDuration
    rw [h]
    norm_num [jsRound]
  have h2 : claimedFallbackDurationSeconds "hello" = 60 := by
    unfold claimedFallbackDurationSeconds
    rw [h]
    norm_num [jsRound]
  refine ⟨h1, h2, ?_⟩
  rw [h1, h2]
  decide

/-- The whitespace splitter cuts `wordsChars n` into exactly `n + 1` pieces,
whatever the accumulator and skipping flag on entry. -/
theorem splitWsGo_wordsChars (n : ℕ) : ∀ (acc : List Char) (b : Bool),
    (splitWsGo (wordsChars n) acc b).length = n + 1 := by
  induction n with
  | zero => intro acc b; rfl
  | succ m ih =>
    intro acc b
    show (String.mk ('d' :: 'r' :: 'o' :: 'w' :: acc).reverse ::
        splitWsGo (wordsChars m) [] true).length = m + 1 + 1
    rw [List.length_cons, ih]

/-- The 450-word draft really has word count 450 under `split(/\s+/)`. -/
theorem wordCountJs_draft450 : wordCountJs draft450 = 450 := by
  show (splitWsGo (wordsChars 449) [] false).length = 450
  rw [splitWsGo_wordsChars]

/-- Claim C6, amended.  When the provider's scoring call fails (`none`) or
supplies no duration, the estimated duration is deterministically
`Math.round(wordCount / 150 * 60)` seconds — rounded to the nearest second
with no one-minute minimum (the nearest-minute/minimum-1 rule belongs to the
client helper `estimateReadingTime`).  For a draft of exactly 450 words the
fallback is 180 seconds and the client helper gives 3 minutes. -/
theorem C6_fallback_duration :
    (∀ (s : String) (pr : Option ProviderAnalysis),
        (pr = none ∨ ∃ r, pr = some r ∧ r.estimatedDuration = none) →
        (analyzeScript s pr).estimatedDuration =
          jsRound ((wordCountJs s : ℚ) / 150 * 60)) ∧
      (analyzeScript draft450 none).estimatedDuration = 180 ∧
      estimateReadingTime draft450 = 3 := by
  have hwc : wordCountJs draft450 = 450 := wordCountJs_draft450
  refine ⟨?_, ?_, ?_⟩
  · intro s pr hpr
    rcases hpr with h | ⟨r, hr, hd⟩
    · rw [h]
      rfl
    · rw [hr]
      show jsOrNum r.estimatedDuration (fallbackDuration s) = _
      rw [hd]
      rfl
  · show fallbackDuration draft450 = 180
    unfold fallbackDuration
    rw [hwc]
    norm_num [jsRound]
  · unfold estimateReadingTime
    rw [hwc]
    norm_num [jsRound]

/-- Claim C6, witness for the amended theorem: instantiated at the draft
"hello" with a failed provider call. -/
theorem C6_fallback_duration_witness :
    (analyzeScript "hello" none).estimatedDuration =
      jsRound ((wordCountJs "hello" : ℚ) / 150 * 60) :=
  C6_fallback_duration.1 "hello" none (Or.inl rfl)

/-- Claim C7: the improvement-focus statement of `createImprovementPrompt`
depends only on the iteration number — 1 maps to reducing redundancy, 2 to
flow/transitions, 3 to language variety, 4 to final engagement polish, and
every iteration number greater than 4 yields the generic instruction. -/
theorem C7_improvement_focus :
    improvementFocus 1 = "Focus on reducing any redundancy or repetitive phrases." ∧
      improvementFocus 2 = "Improve the flow between sections and strengthen transitions." ∧
      improvementFocus 3 = "Enhance the language variety and incorporate higher-impact phrases." ∧
      improvementFocus 4 = "Final polish: optimize for engagement and ensure natural speech patterns." ∧
      ∀ n : ℤ, 4 < n → improvementFocus n = "Improve the overall quality of the script." := by
  refine ⟨by decide, by decide, by decide, by decide, ?_⟩
  intro n hn
  have hl : ((improvementFocusList.length : ℕ) : ℤ) = 4 := by decide
  have hc : ¬(0 ≤ n - 1 ∧ n - 1 < (improvementFocusList.length : ℤ)) := by
    rw [hl]
    omega
  unfold improvementFocus jsArrayGet
  rw [dif_neg hc]
  rfl

/-- Claim C7, witness: iteration number 5 yields the generic instruction. -/
theorem C7_improvement_focus_witness :
    improvementFocus 5 = "Improve the overall quality of the script." :=
  C7_improvement_focus.2.2.2.2 5 (by decide)

/-- Claim C9, counterexample.  The claim says every model-name string other
than "gpt-4o" and "claude-3-7-sonnet-20250219" falls back to the OpenAI
adapter; but the part_006 orchestrator's inline dispatch sends any string
whose lowercase form contains "claude" — here "my-claude-model" — to the
Anthropic adapter. -/
theorem C9_counterexample :
    selectService006 "my-claude-model" = AIServiceTag.anthropicService ∧
      "my-claude-model" ≠ "gpt-4o" ∧
      "my-claude-model" ≠ "claude-3-7-sonnet-20250219" ∧
      AIServiceTag.anthropicService ≠ AIServiceTag.openaiService := by
  decide

/-- Claim C9, amended.  Backend selection is deterministic and total in both
variants.  `getAIService` maps "gpt-4o" to OpenAI, "claude-3-7-sonnet-20250219"
to Anthropic, and every other string (including "grok") to the default OpenAI
adapter.  The part_006 inline dispatch instead routes exactly the model names
whose lowercase form contains "claude" to Anthropic and all others to OpenAI;
the two agree on the three named identifiers. -/
theorem C9_backend_selection :
    getAIService "gpt-4o" = AIServiceTag.openaiService ∧
      getAIService "claude-3-7-sonnet-20250219" = AIServiceTag.anthropicService ∧
      getAIService "grok" = AIServiceTag.openaiService ∧
      (∀ m : String, m ≠ "gpt-4o" → m ≠ "claude-3-7-sonnet-20250219" →
        getAIService m = AIServiceTag.openaiService) ∧
      (∀ m : String, jsIncludes (jsToLower m) "claude" = false →
        selectService006 m = AIServiceTag.openaiService) ∧
      (∀ m : String, jsIncludes (jsToLower m) "claude" = true →
        selectService006 m = AIServiceTag.anthropicService) := by
  refine ⟨by decide, by decide, by decide, ?_, ?_, ?_⟩
  · intro m h1 h2
    unfold getAIService
    rw [if_neg h1, if_neg h2]
    split <;> rfl
  · intro m h
    simp [selectService006, h]
  · intro m h
    simp [selectService006, h]

/-- Claim C9, witness for the amended theorem: "grok" is neither named model
and maps to the OpenAI adapter. -/
theorem C9_backend_selection_witness :
    getAIService "grok" = AIServiceTag.openaiService :=
  C9_backend_selection.2.2.2.1 "grok" (by decide) (by decide)

/-! ## Theorems for claims C1, C2 (sync half), C3, C10 -/
/-- Claim C1, counterexample.  The claim quantifies over any sequence of
orchestrator operations; calling StartInitialGeneration twice on script 1
leaves its iteration numbers as `[1, 1]` — a duplicate, not `{1, …, k}` for
any `k`. -/
theorem C1_counterexample :
    ∃ s ∈ (Sync.runOps Sync.MemStorage.empty doubleStartTrace).scripts,
      ¬∃ k : ℕ, (k : ℤ) ≤ s.totalIterations ∧
        Sync.iterationNumbersOf (Sync.runOps Sync.MemStorage.empty doubleStartTrace)
          s.id = Sync.ascSeq k := by
  refine ⟨sampleScriptStarted, by decide, ?_⟩
  rintro ⟨k, _, hk⟩
  have hnum : Sync.iterationNumbersOf
      (Sync.runOps Sync.MemStorage.empty doubleStartTrace)
      sampleScriptStarted.id = [1, 1] := by decide
  rw [hnum] at hk
  have hlen := congrArg List.length hk
  rw [Sync.ascSeq_length] at hlen
  simp only [List.length_cons, List.length_nil] at hlen
  have hk2 : k = 2 := by omega
  subst hk2
  exact absurd hk (by decide)

/-- Claim C1, amended: provided `StartInitialGeneration` is only ever invoked
on a script that has no iterations yet (the guard the spec assumes but the
code does not implement), every sequence of orchestrator operations leaves
every script's iteration numbers exactly `[1, …, k]` for some `k` not
exceeding its requested total, with no gaps and no duplicates. -/
theorem C1_iteration_numbers (ops : List Sync.Op)
    (hgood : Sync.goodOps Sync.MemStorage.empty ops = true) :
    claimC1 (Sync.runOps Sync.MemStorage.empty ops) := by
  intro s hs
  have hInv := Sync.storeInv_runOps Sync.MemStorage.empty ops Sync.storeInv_empty hgood
  obtain ⟨k, h1, h2⟩ := hInv.nums_asc s hs
  exact ⟨k, h1, (Sync.getIterations_of_raw _ s.id k h2).2.1⟩

/-- Claim C1, witness: the invariant holds after create, generate, improve and
manual edit on a fresh store. -/
theorem C1_iteration_numbers_witness :
    claimC1 (Sync.runOps Sync.MemStorage.empty goodTrace) :=
  C1_iteration_numbers goodTrace (by decide)

/-- Claim C3, counterexample.  After one successful initial generation,
iteration #1 exists; a second StartInitialGeneration on the same script is
not rejected: it answers 200 and a second Iteration numbered 1 appears. -/
theorem C3_counterexample :
    Sync.iterationNumbersOf oneStartState 1 = [1] ∧
      (Sync.postGenerate oneStartState 1 (.ok "draft two") "t2").code = 200 ∧
      Sync.iterationNumbersOf
        (Sync.postGenerate oneStartState 1 (.ok "draft two") "t2").state 1 =
        [1, 1] := by
  decide

/-- Claim C3, amended: the generate endpoint has no idempotency guard at all —
for every existing script, every successful StartInitialGeneration call
answers 200 and appends one more iteration numbered 1, whether or not one
already exists. -/
theorem C3_no_idempotency_guard (st : Sync.MemStorage) (sid : ℕ)
    (sc : Sync.Script) (content now : String)
    (h : Sync.getScript st sid = some sc) :
    (Sync.postGenerate st sid (.ok content) now).code = 200 ∧
      iterationOneCount (Sync.postGenerate st sid (.ok content) now).state sid =
        iterationOneCount st sid + 1 := by
  unfold Sync.postGenerate
  rw [h]
  dsimp only
  refine ⟨rfl, ?_⟩
  unfold iterationOneCount
  rw [(Sync.updateScript_frame _ _ _).1, Sync.createIteration_iterations,
    (Sync.updateScript_frame _ _ _).1]
  rw [List.filter_append, List.length_append]
  simp [Sync.newIterationRecord]

/-- Claim C3, witness for the amended theorem: a second call against the
one-generation store.  -/
theorem C3_no_idempotency_guard_witness :
    (Sync.postGenerate oneStartState 1 (.ok "x") "t").code = 200 ∧
      iterationOneCount (Sync.postGenerate oneStartState 1 (.ok "x") "t").state 1 =
        iterationOneCount oneStartState 1 + 1 :=
  C3_no_idempotency_guard oneStartState 1 sampleScriptStarted "x" "t" (by decide)

/-- Claim C10: `createIteration` rewrites the owning script's
`currentIteration` to the new number and its status to "completed" (when the
number reaches `totalIterations`) or "in_progress" whenever the new number
exceeds `currentIteration`; every other script, every other field, and all
previously stored iterations are untouched (the iterations list is the old
one plus the single new record); when the number does not exceed
`currentIteration`, the scripts are untouched entirely. -/
theorem C10_createIteration_side_effect (st : Sync.MemStorage)
    (ins : Sync.InsertIteration) (sc : Sync.Script)
    (h : Sync.getScript st ins.scriptId = some sc) :
    (ins.iterationNumber > sc.currentIteration →
      Sync.getScript (Sync.createIteration st ins).2 ins.scriptId =
        some { sc with currentIteration := ins.iterationNumber,
                       status := if ins.iterationNumber ≥ sc.totalIterations
                         then "completed" else "in_progress" } ∧
      (∀ oid, oid ≠ ins.scriptId →
        Sync.getScript (Sync.createIteration st ins).2 oid = Sync.getScript st oid) ∧
      (Sync.createIteration st ins).2.iterations =
        st.iterations ++ [Sync.newIterationRecord st ins]) ∧
    (¬ins.iterationNumber > sc.currentIteration →
      (Sync.createIteration st ins).2.scripts = st.scripts ∧
      (Sync.createIteration st ins).2.iterations =
        st.iterations ++ [Sync.newIterationRecord st ins]) := by
  have hup : Sync.getScript (Sync.insertIterationState st ins) ins.scriptId =
      some sc := by
    rw [Sync.getScript_insertIterationState]
    exact h
  constructor
  · intro hgt
    simp only [Sync.createIteration, hup]
    rw [if_pos hgt]
    refine ⟨?_, ?_, ?_⟩
    · rw [Sync.getScript_updateScript_self _ _ _ sc hup]
      rfl
    · intro oid hoid
      rw [Sync.getScript_updateScript_other _ _ _ _ hoid,
        Sync.getScript_insertIterationState]
    · rw [(Sync.updateScript_frame _ _ _).1]
      rfl
  · intro hle
    simp only [Sync.createIteration, hup]
    rw [if_neg hle]
    exact ⟨rfl, rfl⟩

/-- Claim C10, witness: inserting iteration #1 against the freshly created
script advances it to `currentIteration = 1`, `status = "in_progress"`. -/
theorem C10_witness :
    Sync.getScript (Sync.createIteration createdOnlyState
      { scriptId := 1, iterationNumber := 1, content := "c",
        status := "completed", improvements := "i", createdAt := "t" }).2 1 =
      some { sampleScriptDraft with
               currentIteration := 1,
               status := "in_progress" } :=
  ((C10_createIteration_side_effect createdOnlyState
    { scriptId := 1, iterationNumber := 1, content := "c",
      status := "completed", improvements := "i", createdAt := "t" }
    sampleScriptDraft (by decide)).1 (by decide)).1

/-- Claim C2, counterexample.  After four StartInitialGeneration calls the
script owns four iterations — its count equals its requested total of 4 — yet
`/improve` does not reject: the next number is computed as max+1 = 2, the
call answers 200 and creates a fifth record. -/
theorem C2_counterexample :
    (Sync.getScript fourStartsState 1).map (·.totalIterations) = some 4 ∧
      ((fourStartsState.iterations.filter (fun it => it.scriptId == 1)).length : ℤ)
        = 4 ∧
      (Sync.postImprove fourStartsState 1 (.ok ("e", "i")) "t5").code = 200 ∧
      (Sync.postImprove fourStartsState 1 (.ok ("e", "i")) "t5").state.iterations.length
        = fourStartsState.iterations.length + 1 := by
  decide

/-! ## Theorems for claims C2, C4, C5 -/
/-- Claim C2, amended.  The part_006 iterations endpoint — which computes the
next number as count + 1 — always rejects with 400 and leaves the store
untouched when the existing count equals the requested total.  The /improve
endpoint computes the next number as max(existing numbers) + 1 instead, so it
rejects whenever the existing numbers already fill `[1, …, totalIterations]`;
a count equal to the total with duplicated numbers does not trigger the
rejection (see the counterexample). -/
theorem C2_max_iterations_reached :
    (∀ (st : Async.MemStorage) (sid : ℕ) (sc : Async.Script) (now : String),
      Async.getScript st sid = some sc →
      ((Async.getScriptIterations st sid).length : ℤ) = sc.iterations →
      Async.postIterations st sid now = ⟨400, st⟩) ∧
    (∀ (st : Sync.MemStorage) (sid : ℕ) (sc : Sync.Script)
      (gen : Except Unit (String × String)) (now : String) (k : ℕ),
      Sync.getScript st sid = some sc →
      Sync.rawNumbersOf st sid = Sync.ascSeq k →
      (k : ℤ) = sc.totalIterations →
      Sync.postImprove st sid gen now = ⟨400, st⟩) :=
  ⟨fun st sid sc now => Async.postIterations_rejects_at_cap st sid sc now,
   fun st sid sc gen now k => Sync.postImprove_rejects_at_cap st sid sc gen now k⟩

/-- Claim C2, witness: the two-iteration script that requested two iterations
is rejected with 400 and its store is untouched. -/
theorem C2_max_iterations_reached_witness :
    Async.postIterations asyncAtCapState 1 "t3" = ⟨400, asyncAtCapState⟩ :=
  C2_max_iterations_reached.1 asyncAtCapState 1 asyncScript "t3"
    (by decide) (by decide)

/-- Claim C4, counterexample.  The PATCH /api/iterations/:id endpoint updates
only the content: editing an "in_progress" iteration answers 200 but leaves
the status "in_progress", while the claim requires it to become
"completed". -/
theorem C4_counterexample :
    (Sync.patchIteration syncInProgressState 1 "new content").code = 200 ∧
      Sync.getIteration
          (Sync.patchIteration syncInProgressState 1 "new content").state 1 =
        some { syncIterInProgress with content := "new content" } ∧
      ({ syncIterInProgress with content := "new content" } : Sync.Iteration).status
        = "in_progress" ∧
      "in_progress" ≠ "completed" := by
  decide

/-- Claim C4, amended.  The PUT
/api/scripts/:id/iterations/:iterationId endpoint behaves exactly as claimed:
for every existing iteration (matched to its script) and non-empty content it
overwrites the content and forces status "completed" regardless of the prior
status, touching nothing else; an unknown iteration id yields 404 with the
store unchanged.  The PATCH /api/iterations/:id endpoint of the synchronous
variant overwrites the content but leaves the status field as it was (it also
yields 404 unchanged on an unknown id). -/
theorem C4_manual_edit :
    (∀ (st : Async.MemStorage) (sid itId : ℕ) (content : String)
        (sc : Async.Script) (it0 : Async.ScriptIteration),
      content ≠ "" →
      Async.getScript st sid = some sc →
      Async.getScriptIteration st itId = some it0 →
      it0.scriptId = sid →
      (Async.putIteration st sid itId content).code = 200 ∧
      Async.getScriptIteration (Async.putIteration st sid itId content).state itId
        = some { it0 with content := content, status := "completed" } ∧
      (Async.putIteration st sid itId content).state.scripts = st.scripts ∧
      (∀ oid, oid ≠ itId →
        Async.getScriptIteration (Async.putIteration st sid itId content).state oid
          = Async.getScriptIteration st oid)) ∧
    (∀ (st : Async.MemStorage) (sid itId : ℕ) (content : String),
      content ≠ "" →
      Async.getScriptIteration st itId = none →
      Async.putIteration st sid itId content = ⟨404, st⟩) ∧
    (∀ (st : Sync.MemStorage) (itId : ℕ) (content : String)
        (it0 : Sync.Iteration),
      content ≠ "" →
      Sync.getIteration st itId = some it0 →
      (Sync.patchIteration st itId content).code = 200 ∧
      Sync.getIteration (Sync.patchIteration st itId content).state itId =
        some { it0 with content := content } ∧
      (Sync.patchIteration st itId content).state.scripts = st.scripts ∧
      (∀ oid, oid ≠ itId →
        Sync.getIteration (Sync.patchIteration st itId content).state oid =
          Sync.getIteration st oid)) ∧
    (∀ (st : Sync.MemStorage) (itId : ℕ) (content : String),
      content ≠ "" →
      Sync.getIteration st itId = none →
      Sync.patchIteration st itId content = ⟨404, st⟩) := by
  refine ⟨?_, ?_, ?_, ?_⟩
  · intro st sid itId content sc it0 hc hsc hit hown
    unfold Async.putIteration
    rw [if_neg hc, hsc]
    dsimp only
    rw [hit]
    dsimp only
    rw [if_pos (by simp [hown])]
    refine ⟨rfl, ?_, ?_, ?_⟩
    · rw [Async.getScriptIteration_update_self _ _ _ it0 hit]
      rfl
    · exact (Async.updateScriptIteration_frame _ _ _).1
    · intro oid hoid
      exact Async.getScriptIteration_update_other _ _ _ _ hoid
  · intro st sid itId content hc hnone
    unfold Async.putIteration
    rw [if_neg hc]
    cases hsc : Async.getScript st sid with
    | none => rfl
    | some sc =>
      dsimp only
      rw [hnone]
  · intro st itId content it0 hc hit
    unfold Sync.patchIteration
    rw [if_neg hc, hit]
    dsimp only
    refine ⟨rfl, ?_, ?_, ?_⟩
    · rw [Sync.getIteration_updateIteration_self _ _ _ it0 hit]
      rfl
    · exact (Sync.updateIteration_frame _ _ _).1
    · intro oid hoid
      exact Sync.getIteration_updateIteration_other _ _ _ _ hoid
  · intro st itId content hc hnone
    unfold Sync.patchIteration
    rw [if_neg hc, hnone]

/-- Claim C4, witness for the amended theorem: the PUT endpoint applied to an
"in_progress" iteration overwrites the content and forces "completed". -/
theorem C4_manual_edit_witness :
    Async.getScriptIteration
        (Async.putIteration asyncInProgressState 1 1 "edited").state 1 =
      some { asyncIterInProgress with
               content := "edited", status := "completed" } :=
  (C4_manual_edit.1 asyncInProgressState 1 1 "edited" asyncScript
    asyncIterInProgress (by decide) (by decide) (by decide) (by decide)).2.1

/-- Claim C5: when the adapter/provider call of the asynchronous generation
task errors, the task (a total function — nothing escapes the try/catch at
the task boundary) updates the affected iteration to status "failed" with the
fixed placeholder content, and nothing else: the scripts and every other
iteration are untouched; if the iteration id is unknown, the store is
entirely unchanged. -/
theorem C5_failed_generation_swallowed :
    (∀ (st : Async.MemStorage) (iterationId : ℕ)
        (previousIterations : List Async.ScriptIteration) (e : Unit)
        (analysis : Option ProviderAnalysis) (comparison : Async.CompareResult)
        (it0 : Async.ScriptIteration),
      Async.getScriptIteration st iterationId = some it0 →
      Async.getScriptIteration
          (Async.generateScriptContent st iterationId previousIterations
            (.error e) analysis comparison) iterationId =
        some { it0 with
                 content := "Error generating script content.",
                 status := "failed" } ∧
      (Async.generateScriptContent st iterationId previousIterations
          (.error e) analysis comparison).scripts = st.scripts ∧
      (∀ oid, oid ≠ iterationId →
        Async.getScriptIteration
            (Async.generateScriptContent st iterationId previousIterations
              (.error e) analysis comparison) oid =
          Async.getScriptIteration st oid)) ∧
    (∀ (st : Async.MemStorage) (iterationId : ℕ)
        (previousIterations : List Async.ScriptIteration) (e : Unit)
        (analysis : Option ProviderAnalysis) (comparison : Async.CompareResult),
      Async.getScriptIteration st iterationId = none →
      Async.generateScriptContent st iterationId previousIterations
        (.error e) analysis comparison = st) := by
  constructor
  · intro st iterationId previousIterations e analysis comparison it0 hit
    refine ⟨?_, ?_, ?_⟩
    · rw [show Async.generateScriptContent st iterationId previousIterations
          (.error e) analysis comparison =
        (Async.updateScriptIteration st iterationId
          { content := some "Error generating script content.",
            status := some "failed" }).2 from rfl]
      rw [Async.getScriptIteration_update_self _ _ _ it0 hit]
      rfl
    · exact (Async.updateScriptIteration_frame _ _ _).1
    · intro oid hoid
      exact Async.getScriptIteration_update_other _ _ _ _ hoid
  · intro st iterationId previousIterations e analysis comparison hnone
    show (Async.updateScriptIteration st iterationId _).2 = st
    unfold Async.updateScriptIteration
    rw [hnone]

/-- Claim C5, witness: an erroring generation against the in-progress
iteration leaves it "failed" with the placeholder content. -/
theorem C5_failed_generation_swallowed_witness :
    Async.getScriptIteration
        (Async.generateScriptContent asyncInProgressState 1 []
          (.error ()) none ⟨0, []⟩) 1 =
      some { asyncIterInProgress with
               content := "Error generating script content.",
               status := "failed" } :=
  (C5_failed_generation_swallowed.1 asyncInProgressState 1 [] () none ⟨0, []⟩
    asyncIterInProgress (by decide)).1

/-- Claim C8: for script content assembled from plain text interleaved with
timestamp spans matching `(m:ss)` or `(m:ss-m:ss)` — the plain parts free of
the trigger characters `(`, `#`, `*`, `[` of the other formatting passes —
every export format removes exactly the timestamp spans when
`includeTimestamps` is false, and preserves them when it is true: verbatim in
the text and markdown formats, wrapped in `<span class="timestamp">…</span>`
in the HTML format, under every combination of the remaining settings. -/
theorem C8_timestamp_export (title : String) (settings : Export.ExportSettings)
    (metadata : Option (List (String × String))) (s0 : List Char)
    (segs : List (List Char × List Char))
    (h0 : Export.PlainSeg s0)
    (hsegs : ∀ p ∈ segs, Export.IsTs p.1 ∧ Export.PlainSeg p.2) :
    (settings.includeTimestamps = false →
      Export.scriptToText (String.mk (Export.assembleSegs s0 segs))
          title settings metadata
        = Export.textHead title settings metadata ++
            String.mk (Export.concatPlain s0 segs) ∧
      Export.scriptToMarkdown (String.mk (Export.assembleSegs s0 segs))
          title settings metadata
        = Export.mdHead title settings metadata ++
            String.mk (Export.concatPlain s0 segs) ∧
      Export.scriptToHtml (String.mk (Export.assembleSegs s0 segs))
          title settings metadata
        = Export.htmlHead title settings metadata ++
            String.mk (Export.concatPlain s0 segs) ++ Export.htmlTail) ∧
    (settings.includeTimestamps = true →
      Export.scriptToText (String.mk (Export.assembleSegs s0 segs))
          title settings metadata
        = Export.textHead title settings metadata ++
            String.mk (Export.assembleSegs s0 segs) ∧
      Export.scriptToMarkdown (String.mk (Export.assembleSegs s0 segs))
          title settings metadata
        = Export.mdHead title settings metadata ++
            String.mk (Export.assembleSegs s0 segs) ∧
      Export.scriptToHtml (String.mk (Export.assembleSegs s0 segs))
          title settings metadata
        = Export.htmlHead title settings metadata ++
            String.mk (Export.assembleWith Export.wrapTimestamp s0 segs) ++
            Export.htmlTail) := by
  constructor
  · intro hIT
    refine ⟨?_, ?_, ?_⟩
    · rw [Export.scriptToText_assemble title settings metadata s0 segs h0
        hsegs, hIT]
      simp
    · rw [Export.scriptToMarkdown_assemble title settings metadata s0 segs h0
        hsegs, hIT]
      simp
    · rw [Export.scriptToHtml_assemble title settings metadata s0 segs h0
        hsegs, hIT]
      simp
  · intro hIT
    refine ⟨?_, ?_, ?_⟩
    · rw [Export.scriptToText_assemble title settings metadata s0 segs h0
        hsegs, hIT]
      simp
    · rw [Export.scriptToMarkdown_assemble title settings metadata s0 segs h0
        hsegs, hIT]
      simp
    · rw [Export.scriptToHtml_assemble title settings metadata s0 segs h0
        hsegs, hIT]
      simp

/-- Claim C8, witness: exporting "Hello (1:23-1:45) world" as plain text with
timestamps disabled yields the plain-text head followed by "Hello  world". -/
theorem C8_timestamp_export_witness :
    Export.scriptToText
        (String.mk (Export.assembleSegs "Hello ".data tsSegs))
        "My Script" ⟨"text", false, false, true, false⟩ none
      = Export.textHead "My Script" ⟨"text", false, false, true, false⟩ none ++
          String.mk (Export.concatPlain "Hello ".data tsSegs) :=
  ((C8_timestamp_export "My Script" ⟨"text", false, false, true, false⟩ none
      "Hello ".data tsSegs ⟨by decide, by decide, by decide, by decide⟩
      (fun p hp => by
        rw [List.mem_singleton.mp hp]
        exact ⟨Export.IsTs.long ['1'] ['2', '3'] ['1'] ['4', '5']
            (by decide) (by decide) (by decide) (by decide)
            (by decide) (by decide) (by decide) (by decide),
          by decide, by decide, by decide, by decide⟩)).1 rfl).1

end Scriptwriting
